import Mathlib

/-! The rustydog firmware: the servo command queue and the motion state machine.

A shallow embedding of `firmware/src/ServoMod.hpp` and `firmware/src/ServoMod.cpp`.

* C++ `int` values are `Int`.  The queue's counters stay inside `0..20` and the
  current angle only moves toward a target angle, so none of the `int`
  operations of the source can overflow on reachable values.
* `unsigned long` values are `Nat` reduced modulo `2^32` (the Arduino width).
* The array `angles[20]` is a function on indices; an access outside `0..19`
  is undefined behaviour in C++ and is a `Fault.outOfBounds` result here.
* A callback pointer is `Option Nat`: `none` is `nullptr`, `some n` names the
  registered function.  Calling a callback emits an `Event`; calling `nullptr`
  is undefined behaviour and is a `Fault.nullCall` result here.
* `errorHandler()` never returns (it blinks forever): `Fault.errorHandler`.
* The `Servo` object is modelled by the list of calls made on it.
* `millis()` is the real time in milliseconds since boot, reduced modulo `2^32`.
-/

/-! ## Data model (ServoMod.hpp) -/

/-- The capacity of the queue, `#define SPEED_SERVO_BUFFER_SIZE 20`. -/
def SPEED_SERVO_BUFFER_SIZE : Int := 20

/-- The drain threshold, `#define SPEED_SERVO_BUFFER_HALF_SIZE 10`. -/
def SPEED_SERVO_BUFFER_HALF_SIZE : Int := 10

/-- The number of values of an `unsigned long`. -/
def ULONG_MOD : Nat := 4294967296

/-- One commanded target, `struct SpeedServoTarget`. -/
structure SpeedServoTarget where
  angle : Int
  speed : Int
deriving DecidableEq, Repr

/-- A call of one of the two callbacks of a queue. -/
inductive Event where
  | drain (cb : Nat) (need : Int)
  | empty (cb : Nat)
deriving DecidableEq, Repr

/-- The ways in which a call does not return. -/
inductive Fault where
  | nullCall
  | outOfBounds
  | divByZero
  | errorHandler
deriving DecidableEq, Repr

/-- The queue, `class SpeedServoBuffer`. -/
structure SpeedServoBuffer where
  angles : Int → SpeedServoTarget
  size : Int
  readIndex : Int
  writeIndex : Int
  drainCallback : Option Nat
  emptyCallback : Option Nat

/-- What a call of `push` leaves behind: the returned flag, the queue and the
callbacks that were called. -/
structure PushResult where
  ret : Bool
  buffer : SpeedServoBuffer
  events : List Event

/-- What a call of `pop` leaves behind: the returned flag, the caller's
reference argument, the queue and the callbacks that were called. -/
structure PopResult where
  ret : Bool
  angle : SpeedServoTarget
  buffer : SpeedServoBuffer
  events : List Event

/-! ## SpeedServoBuffer (ServoMod.cpp, lines 7-71) -/

/-- The constructor `SpeedServoBuffer::SpeedServoBuffer()`.  The array is not
initialised by the source; `mem` is whatever it holds. -/
def SpeedServoBuffer.new (mem : Int → SpeedServoTarget) : SpeedServoBuffer :=
  { angles := mem, size := 0, readIndex := 0, writeIndex := 0,
    drainCallback := none, emptyCallback := none }

/-- The setter `SpeedServoBuffer::onDrain`. -/
def SpeedServoBuffer.onDrain (b : SpeedServoBuffer) (drainCallback : Option Nat) :
    SpeedServoBuffer :=
  { b with drainCallback := drainCallback }

/-- The setter `SpeedServoBuffer::onEmpty`. -/
def SpeedServoBuffer.onEmpty (b : SpeedServoBuffer) (emptyCallback : Option Nat) :
    SpeedServoBuffer :=
  { b with emptyCallback := emptyCallback }

/-- An index is inside the array `angles[SPEED_SERVO_BUFFER_SIZE]`. -/
def inBounds (i : Int) : Bool :=
  decide (0 ≤ i) && decide (i < SPEED_SERVO_BUFFER_SIZE)

/-- The method `SpeedServoBuffer::push`. -/
def SpeedServoBuffer.push (b : SpeedServoBuffer) (angle : SpeedServoTarget) :
    Except Fault PushResult :=
  if b.size = SPEED_SERVO_BUFFER_SIZE then
    .ok { ret := false, buffer := b, events := [] }
  else if inBounds b.writeIndex = false then
    .error Fault.outOfBounds
  else
    .ok { ret := true
          buffer :=
            { b with
              angles := Function.update b.angles b.writeIndex angle
              writeIndex := (b.writeIndex + 1) % SPEED_SERVO_BUFFER_SIZE
              size := b.size + 1 }
          events := [] }

/-- The method `SpeedServoBuffer::pop`; `angle` is the reference argument. -/
def SpeedServoBuffer.pop (b : SpeedServoBuffer) (angle : SpeedServoTarget) :
    Except Fault PopResult :=
  if b.size = 0 then
    .ok { ret := false, angle := angle, buffer := b, events := [] }
  else if inBounds b.readIndex = false then
    .error Fault.outOfBounds
  else
    let b1 : SpeedServoBuffer :=
      { b with
        readIndex := (b.readIndex + 1) % SPEED_SERVO_BUFFER_SIZE
        size := b.size - 1 }
    match decide (b1.size = 0), b1.emptyCallback with
    | true, some cb =>
      .ok { ret := true, angle := b.angles b.readIndex, buffer := b1,
            events := [Event.empty cb] }
    | _, _ =>
      if b1.size = SPEED_SERVO_BUFFER_HALF_SIZE then
        match b1.drainCallback with
        | some cb =>
          .ok { ret := true, angle := b.angles b.readIndex, buffer := b1,
                events := [Event.drain cb (SPEED_SERVO_BUFFER_SIZE - b1.size)] }
        | none => .error Fault.nullCall
      else
        .ok { ret := true, angle := b.angles b.readIndex, buffer := b1, events := [] }

/-- The method `SpeedServoBuffer::isEmpty`. -/
def SpeedServoBuffer.isEmpty (b : SpeedServoBuffer) : Bool :=
  decide (b.size = 0)

/-! ## ServoMod (ServoMod.hpp lines 54-129, ServoMod.cpp lines 73-229) -/

/-- The states of the machine, `enum class State`. -/
inductive State where
  | Uninitialized
  | Idle
  | Adjusting
deriving DecidableEq, Repr

/-- A call on the `Servo` member. -/
inductive ServoOp where
  | attach (pin : Int)
  | write (angle : Int)
deriving DecidableEq, Repr

/-- The record `ServoMod::AdjustingState`. -/
structure AdjustingState where
  target : SpeedServoTarget
  lastMillis : Nat
  firstIter : Bool
  intervalMillis : Nat
deriving DecidableEq, Repr

/-- The machine, `class ServoMod`.  The member `servo` is the list of the
calls made on it, oldest first. -/
structure ServoMod where
  buffer : SpeedServoBuffer
  adjustingState : AdjustingState
  servo : List ServoOp
  state : State
  nextState : State
  angle : Int
  pin : Int

/-- The two readings of the clock that one tick may take: the real times, in
milliseconds since boot, at which `adjustingDo` calls `millis()` for the pacing
check and for the time stamp. -/
structure Tick where
  check : Nat
  stamp : Nat
deriving DecidableEq, Repr

/-- The Arduino function `millis()` at real time `t`: an `unsigned long`. -/
def millis (t : Nat) : Nat := t % ULONG_MOD

/-- Subtraction of two `unsigned long` values. -/
def subUL (a b : Nat) : Nat := (a + (ULONG_MOD - b % ULONG_MOD)) % ULONG_MOD

/-- The conversion of an `int` to `unsigned long`. -/
def toUL (i : Int) : Nat := (i % (ULONG_MOD : Int)).toNat

/-- The method `ServoMod::transition`. -/
def ServoMod.transition (m : ServoMod) (state : State) : Bool × ServoMod :=
  if state = m.state ∨ state = m.nextState then (false, m)
  else (true, { m with nextState := state })

/-- The method `ServoMod::adjustingEntry`. -/
def ServoMod.adjustingEntry (m : ServoMod) : Except Fault (ServoMod × List Event) :=
  match m.buffer.pop m.adjustingState.target with
  | .error f => .error f
  | .ok r =>
    if r.ret = false then .error Fault.errorHandler
    else if toUL r.angle.speed = 0 then .error Fault.divByZero
    else
      .ok ({ m with
             buffer := r.buffer
             adjustingState :=
               { m.adjustingState with
                 target := r.angle
                 firstIter := true
                 intervalMillis := 1000 / toUL r.angle.speed } }, r.events)

/-- The method `ServoMod::adjustingExit`. -/
def ServoMod.adjustingExit (m : ServoMod) : ServoMod := m

/-- The method `ServoMod::idleDo`. -/
def ServoMod.idleDo (m : ServoMod) : ServoMod :=
  if m.buffer.isEmpty then m
  else (m.transition State.Adjusting).2

/-- The part of `ServoMod::adjustingDo` after the pacing check (lines 207-226). -/
def ServoMod.adjustingStep (m : ServoMod) (t : Tick) : ServoMod :=
  if m.adjustingState.target.angle > m.angle then
    { m with
      angle := m.angle + 1
      servo := m.servo ++ [ServoOp.write (m.angle + 1)]
      adjustingState := { m.adjustingState with lastMillis := millis t.stamp } }
  else if m.adjustingState.target.angle < m.angle then
    { m with
      angle := m.angle - 1
      servo := m.servo ++ [ServoOp.write (m.angle - 1)]
      adjustingState := { m.adjustingState with lastMillis := millis t.stamp } }
  else
    (m.transition State.Idle).2

/-- The method `ServoMod::adjustingDo`. -/
def ServoMod.adjustingDo (m : ServoMod) (t : Tick) : ServoMod :=
  if m.adjustingState.firstIter then
    ServoMod.adjustingStep
      { m with adjustingState := { m.adjustingState with firstIter := false } } t
  else if subUL (millis t.check) m.adjustingState.lastMillis
      < m.adjustingState.intervalMillis then
    m
  else
    ServoMod.adjustingStep m t

/-- The method `ServoMod::stateEntry`. -/
def ServoMod.stateEntry (m : ServoMod) : Except Fault (ServoMod × List Event) :=
  match m.state with
  | State.Adjusting => m.adjustingEntry
  | _ => .ok (m, [])

/-- The method `ServoMod::stateDo`. -/
def ServoMod.stateDo (m : ServoMod) (t : Tick) : ServoMod :=
  match m.state with
  | State.Adjusting => m.adjustingDo t
  | State.Idle => m.idleDo
  | _ => m

/-- The method `ServoMod::stateExit`. -/
def ServoMod.stateExit (m : ServoMod) : ServoMod :=
  match m.state with
  | State.Adjusting => m.adjustingExit
  | _ => m

/-- The constructor `ServoMod::ServoMod(int pin)`.  The members `buffer.angles`
and `adjustingState` are not initialised by the source; `mem` and `adj` are
whatever they hold.  The call of `stateEntry()` in the body does nothing in
state `Uninitialized`. -/
def ServoMod.new (pin : Int) (mem : Int → SpeedServoTarget) (adj : AdjustingState) :
    ServoMod :=
  { buffer := SpeedServoBuffer.new mem, adjustingState := adj, servo := [],
    state := State.Uninitialized, nextState := State.Uninitialized,
    angle := 0, pin := pin }

/-- The method `ServoMod::setup`. -/
def ServoMod.setup (m : ServoMod) : Bool × ServoMod :=
  if m.state ≠ State.Uninitialized then (false, m)
  else
    let m1 : ServoMod :=
      { m with servo := m.servo ++ [ServoOp.attach m.pin, ServoOp.write m.angle] }
    (true, (m1.transition State.Idle).2)

/-- The method `ServoMod::loop`, one tick. -/
def ServoMod.loop (m : ServoMod) (t : Tick) : Except Fault (ServoMod × List Event) :=
  if m.state ≠ m.nextState then
    let m1 := m.stateExit
    match ServoMod.stateEntry { m1 with state := m1.nextState } with
    | .error f => .error f
    | .ok (m2, ev) => .ok (m2.stateDo t, ev)
  else
    .ok (m.stateDo t, [])

/-! ## Drivers: sequences of calls -/

/-- Push the targets of a list, first to last; the flags returned, in order. -/
def SpeedServoBuffer.pushAll (b : SpeedServoBuffer) :
    List SpeedServoTarget → Except Fault (List Bool × SpeedServoBuffer)
  | [] => .ok ([], b)
  | t :: ts =>
    match b.push t with
    | .error f => .error f
    | .ok r =>
      match SpeedServoBuffer.pushAll r.buffer ts with
      | .error f => .error f
      | .ok (rs, b2) => .ok (r.ret :: rs, b2)

/-- Call `pop` `n` times, each into a fresh variable holding `dflt`; the
results, in order. -/
def SpeedServoBuffer.popN (dflt : SpeedServoTarget) :
    Nat → SpeedServoBuffer → Except Fault (List PopResult)
  | 0, _ => .ok []
  | n + 1, b =>
    match b.pop dflt with
    | .error f => .error f
    | .ok r =>
      match SpeedServoBuffer.popN dflt n r.buffer with
      | .error f => .error f
      | .ok rs => .ok (r :: rs)

/-- The machine after `n` ticks, tick `k` (from 0) reading the clock at `clk k`,
with the callbacks called on the way. -/
def ServoMod.runTicks (clk : Nat → Tick) : Nat → ServoMod → Except Fault (ServoMod × List Event)
  | 0, m => .ok (m, [])
  | n + 1, m =>
    match ServoMod.runTicks clk n m with
    | .error f => .error f
    | .ok (m1, ev) =>
      match m1.loop (clk n) with
      | .error f => .error f
      | .ok (m2, ev2) => .ok (m2, ev ++ ev2)

/-- One call on a queue from outside. -/
inductive BufferCall where
  | push (t : SpeedServoTarget)
  | pop (out : SpeedServoTarget)
  | onDrain (cb : Option Nat)
  | onEmpty (cb : Option Nat)
deriving DecidableEq, Repr

/-- The queue after one call, whether the call succeeds or fails. -/
def SpeedServoBuffer.call (b : SpeedServoBuffer) : BufferCall → Except Fault SpeedServoBuffer
  | BufferCall.push t =>
    match b.push t with
    | .error f => .error f
    | .ok r => .ok r.buffer
  | BufferCall.pop out =>
    match b.pop out with
    | .error f => .error f
    | .ok r => .ok r.buffer
  | BufferCall.onDrain cb => .ok (b.onDrain cb)
  | BufferCall.onEmpty cb => .ok (b.onEmpty cb)

/-- The queue after a sequence of calls, first to last. -/
def SpeedServoBuffer.runCalls (b : SpeedServoBuffer) :
    List BufferCall → Except Fault SpeedServoBuffer
  | [] => .ok b
  | c :: cs =>
    match b.call c with
    | .error f => .error f
    | .ok b1 => SpeedServoBuffer.runCalls b1 cs

/-- A value that fits a C `int` of 32 bits (or fewer). -/
def isInt (i : Int) : Prop := -2147483648 ≤ i ∧ i ≤ 2147483647

instance isIntDecidable (i : Int) : Decidable (isInt i) := by
  unfold isInt
  infer_instance

/-- The clock readings of a run are paced by `iv` milliseconds: between the
last reading of a tick and the first reading of the next tick at least `iv`
milliseconds pass, and fewer than `2^32`. -/
def paced (iv : Nat) (clk : Nat → Tick) : Prop :=
  ∀ k, (clk k).stamp + iv ≤ (clk (k + 1)).check ∧
    (clk (k + 1)).check < (clk k).stamp + ULONG_MOD

/-- The clock readings of a run are at least `iv` milliseconds apart, with no
upper bound on the gap. -/
def spaced (iv : Nat) (clk : Nat → Tick) : Prop :=
  ∀ k, (clk k).stamp + iv ≤ (clk (k + 1)).check

/-- The callbacks a successful `pop` calls (lines 56-63), as a function of the
two callback pointers and of the count after the pop. -/
def notify (d e : Option Nat) (size : Int) : Except Fault (List Event) :=
  match decide (size = 0), e with
  | true, some cb => .ok [Event.empty cb]
  | _, _ =>
    if size = SPEED_SERVO_BUFFER_HALF_SIZE then
      match d with
      | some cb => .ok [Event.drain cb (SPEED_SERVO_BUFFER_SIZE - size)]
      | none => .error Fault.nullCall
    else .ok []

/-- The callbacks a successful `pop` calls, read off the queue it leaves. -/
def popEvents (b1 : SpeedServoBuffer) : Except Fault (List Event) :=
  notify b1.drainCallback b1.emptyCallback b1.size

/-- The queue a successful `pop` leaves. -/
def popped (b : SpeedServoBuffer) : SpeedServoBuffer :=
  { b with
    readIndex := (b.readIndex + 1) % SPEED_SERVO_BUFFER_SIZE
    size := b.size - 1 }

/-- A machine in `Idle` whose queue holds the one target `{2, 1000}`. -/
def wrapMachine : ServoMod :=
  { buffer :=
      { angles := fun _ => ⟨2, 1000⟩, size := 1, readIndex := 0, writeIndex := 1,
        drainCallback := some 0, emptyCallback := some 0 }
    adjustingState := ⟨⟨0, 1⟩, 0, false, 0⟩
    servo := [ServoOp.attach 3, ServoOp.write 0]
    state := State.Idle, nextState := State.Idle, angle := 0, pin := 3 }

/-- A clock whose ticks are `2^32` ms apart: tick `k` at `k * 2^32` ms. -/
def wrapClock : Nat → Tick := fun k => ⟨k * 4294967296, k * 4294967296⟩

/-- A clock whose ticks are 1 ms apart. -/
def unitClock : Nat → Tick := fun k => ⟨k, k⟩

/-- A machine in `Idle` at angle `c` whose queue holds the one target `t`. -/
def idleWith (c : Int) (t : SpeedServoTarget) : ServoMod :=
  { buffer :=
      { angles := fun _ => t, size := 1, readIndex := 3, writeIndex := 4,
        drainCallback := some 0, emptyCallback := some 1 }
    adjustingState := ⟨⟨0, 1⟩, 77, false, 5⟩
    servo := [ServoOp.attach 3, ServoOp.write 0]
    state := State.Idle, nextState := State.Idle, angle := c, pin := 3 }

/-- What is known of the machine `x` that a run of `n` paced ticks makes of an
idle machine `m` at angle `c` holding the one target `{a, s}`, with
`d = |a - c|`. -/
def ConvInv (m : ServoMod) (clk : Nat → Tick) (c a s : Int) (d n : Nat)
    (x : ServoMod) : Prop :=
  (c ≤ a → n ≤ d + 1 → x.angle = c + ((n - 1 : Nat) : Int)) ∧
  (a ≤ c → n ≤ d + 1 → x.angle = c - ((n - 1 : Nat) : Int)) ∧
  (d + 1 ≤ n → x.angle = a) ∧
  (n = 0 → x = m) ∧
  (n = 1 → x = { m with nextState := State.Adjusting }) ∧
  (2 ≤ n → x.buffer = popped m.buffer ∧ x.adjustingState.target = ⟨a, s⟩ ∧
    x.adjustingState.firstIter = false ∧
    x.adjustingState.intervalMillis = 1000 / toUL s) ∧
  (2 ≤ n → n ≤ d + 1 → x.state = State.Adjusting ∧ x.nextState = State.Adjusting ∧
    x.adjustingState.lastMillis = millis (clk (n - 1)).stamp) ∧
  (n = d + 2 → x.state = State.Adjusting ∧ x.nextState = State.Idle) ∧
  (d + 3 ≤ n → x.state = State.Idle ∧ x.nextState = State.Idle)

/-! ## The queue as a list, and the machine under calls from outside -/

/-- The cursors and the count of a queue fit together: both cursors are inside
the array, the count is between 0 and 20, and the write cursor is the read
cursor advanced by the count, modulo 20. -/
def SpeedServoBuffer.wellFormed (b : SpeedServoBuffer) : Prop :=
  0 ≤ b.readIndex ∧ b.readIndex < 20 ∧ 0 ≤ b.writeIndex ∧ b.writeIndex < 20 ∧
    0 ≤ b.size ∧ b.size ≤ 20 ∧ b.writeIndex = (b.readIndex + b.size) % 20

instance wellFormedDecidable (b : SpeedServoBuffer) : Decidable b.wellFormed := by
  unfold SpeedServoBuffer.wellFormed
  infer_instance

/-- The targets a queue holds, oldest first: the `size` array cells from the
read cursor onward, modulo 20. -/
def SpeedServoBuffer.contents (b : SpeedServoBuffer) : List SpeedServoTarget :=
  (List.range b.size.toNat).map (fun (i : Nat) => b.angles ((b.readIndex + (i : Int)) % 20))

/-- A call of `push` or of `pop` on a queue. -/
inductive QueueOp where
  | push (t : SpeedServoTarget)
  | pop
deriving DecidableEq, Repr

/-- What a call of `push` or of `pop` hands back: the flag, and for a pop that
returned true the target it stored in the caller's variable. -/
inductive QueueOut where
  | push (ret : Bool)
  | pop (ret : Bool) (angle : Option SpeedServoTarget)
deriving DecidableEq, Repr

/-- Run a sequence of `push` and `pop` calls on a queue, each pop into a fresh
variable holding `dflt`; what the calls hand back, in order, and the queue
left. -/
def SpeedServoBuffer.runOps (dflt : SpeedServoTarget) (b : SpeedServoBuffer) :
    List QueueOp → Except Fault (List QueueOut × SpeedServoBuffer)
  | [] => .ok ([], b)
  | QueueOp.push t :: ops =>
    match b.push t with
    | .error f => .error f
    | .ok r =>
      match SpeedServoBuffer.runOps dflt r.buffer ops with
      | .error f => .error f
      | .ok (outs, b2) => .ok (QueueOut.push r.ret :: outs, b2)
  | QueueOp.pop :: ops =>
    match b.pop dflt with
    | .error f => .error f
    | .ok r =>
      match SpeedServoBuffer.runOps dflt r.buffer ops with
      | .error f => .error f
      | .ok (outs, b2) =>
        .ok (QueueOut.pop r.ret (if r.ret then some r.angle else none) :: outs, b2)

/-- The abstract queue of the specification, a list bounded at 20 elements:
`push` appends at the back iff the length is below 20. -/
def absPush (q : List SpeedServoTarget) (t : SpeedServoTarget) :
    Bool × List SpeedServoTarget :=
  if q.length < 20 then (true, q ++ [t]) else (false, q)

/-- The abstract queue of the specification: `pop` removes the front iff the
list is non-empty. -/
def absPop : List SpeedServoTarget → Option SpeedServoTarget × List SpeedServoTarget
  | [] => (none, [])
  | x :: xs => (some x, xs)

/-- Run a sequence of `push` and `pop` calls on the abstract queue. -/
def absRun (q : List SpeedServoTarget) :
    List QueueOp → List QueueOut × List SpeedServoTarget
  | [] => ([], q)
  | QueueOp.push t :: ops =>
    (QueueOut.push (absPush q t).1 :: (absRun (absPush q t).2 ops).1,
      (absRun (absPush q t).2 ops).2)
  | QueueOp.pop :: ops =>
    (QueueOut.pop (absPop q).1.isSome (absPop q).1 :: (absRun (absPop q).2 ops).1,
      (absRun (absPop q).2 ops).2)

/-- A call on a machine from outside: `setup()`, `loop()` at given clock
readings, and, through `getBuffer()`, `push` and the two setters. -/
inductive MachineCall where
  | setup
  | loop (t : Tick)
  | push (t : SpeedServoTarget)
  | onDrain (cb : Option Nat)
  | onEmpty (cb : Option Nat)
deriving DecidableEq, Repr

/-- The machine after one call from outside. -/
def ServoMod.call (m : ServoMod) : MachineCall → Except Fault ServoMod
  | MachineCall.setup => .ok m.setup.2
  | MachineCall.loop t =>
    match m.loop t with
    | .error f => .error f
    | .ok (m1, _) => .ok m1
  | MachineCall.push t =>
    match m.buffer.push t with
    | .error f => .error f
    | .ok r => .ok { m with buffer := r.buffer }
  | MachineCall.onDrain cb => .ok { m with buffer := m.buffer.onDrain cb }
  | MachineCall.onEmpty cb => .ok { m with buffer := m.buffer.onEmpty cb }

/-- The machine after a sequence of calls from outside, first to last. -/
def ServoMod.runCalls (m : ServoMod) : List MachineCall → Except Fault ServoMod
  | [] => .ok m
  | c :: cs =>
    match m.call c with
    | .error f => .error f
    | .ok m1 => ServoMod.runCalls m1 cs

/-- A call of normal operation: a pushed target has a non-zero speed that fits
a C `int`, and a drain callback is never unset. -/
def MachineCall.normal : MachineCall → Prop
  | MachineCall.push t => t.speed ≠ 0 ∧ isInt t.speed
  | MachineCall.onDrain cb => cb ≠ none
  | _ => True

instance normalDecidable (c : MachineCall) : Decidable c.normal := by
  cases c <;> unfold MachineCall.normal <;> infer_instance

/-- The states a machine can be in once it has left `Uninitialized`, and before. -/
def ServoMod.lifecycle (m : ServoMod) : Prop :=
  (m.state = State.Uninitialized ∧
      (m.nextState = State.Uninitialized ∨ m.nextState = State.Idle)) ∨
    ((m.state = State.Idle ∨ m.state = State.Adjusting) ∧
      (m.nextState = State.Idle ∨ m.nextState = State.Adjusting))

/-- What normal operation keeps true of a machine: the queue is well formed and
has a drain callback, every queued speed divides, and `Adjusting` is pending
only over a non-empty queue. -/
def ServoMod.normalInv (m : ServoMod) : Prop :=
  m.buffer.wellFormed ∧ m.buffer.drainCallback ≠ none ∧
    (∀ t ∈ m.buffer.contents, toUL t.speed ≠ 0) ∧
    (m.nextState = State.Adjusting → m.state ≠ State.Adjusting → m.buffer.size ≠ 0)

/-! ## The queue: single calls -/

theorem push_full (b : SpeedServoBuffer) (t : SpeedServoTarget)
    (h : b.size = SPEED_SERVO_BUFFER_SIZE) :
    b.push t = .ok { ret := false, buffer := b, events := [] } := by
  simp [SpeedServoBuffer.push, h]

theorem push_fault (b : SpeedServoBuffer) (t : SpeedServoTarget)
    (h : b.size ≠ SPEED_SERVO_BUFFER_SIZE) (hw : inBounds b.writeIndex = false) :
    b.push t = .error Fault.outOfBounds := by
  simp [SpeedServoBuffer.push, h, hw]

theorem push_room (b : SpeedServoBuffer) (t : SpeedServoTarget)
    (h : b.size ≠ SPEED_SERVO_BUFFER_SIZE) (hw : inBounds b.writeIndex = true) :
    b.push t = .ok
      { ret := true
        buffer :=
          { b with
            angles := Function.update b.angles b.writeIndex t
            writeIndex := (b.writeIndex + 1) % SPEED_SERVO_BUFFER_SIZE
            size := b.size + 1 }
        events := [] } := by
  simp [SpeedServoBuffer.push, h, hw]

/-- Whatever `push` returns, it called no callback, and a `false` result comes
with the queue it was given. -/
theorem push_ok_cases (b : SpeedServoBuffer) (t : SpeedServoTarget) (r : PushResult)
    (h : b.push t = .ok r) :
    r.events = [] ∧
      ((r.ret = false ∧ b.size = SPEED_SERVO_BUFFER_SIZE ∧ r.buffer = b) ∨
       (r.ret = true ∧ b.size ≠ SPEED_SERVO_BUFFER_SIZE ∧ inBounds b.writeIndex = true ∧
        r.buffer.size = b.size + 1 ∧ r.buffer.readIndex = b.readIndex ∧
        r.buffer.writeIndex = (b.writeIndex + 1) % SPEED_SERVO_BUFFER_SIZE ∧
        r.buffer.angles = Function.update b.angles b.writeIndex t ∧
        r.buffer.drainCallback = b.drainCallback ∧
        r.buffer.emptyCallback = b.emptyCallback)) := by
  by_cases hs : b.size = SPEED_SERVO_BUFFER_SIZE
  · rw [push_full b t hs] at h
    cases h
    simp [hs]
  · cases hw : inBounds b.writeIndex
    · rw [push_fault b t hs hw] at h
      cases h
    · rw [push_room b t hs hw] at h
      cases h
      simp [hs]

theorem pop_empty (b : SpeedServoBuffer) (out : SpeedServoTarget) (h : b.size = 0) :
    b.pop out = .ok { ret := false, angle := out, buffer := b, events := [] } := by
  simp [SpeedServoBuffer.pop, h]

theorem pop_fault (b : SpeedServoBuffer) (out : SpeedServoTarget)
    (h : b.size ≠ 0) (hr : inBounds b.readIndex = false) :
    b.pop out = .error Fault.outOfBounds := by
  simp [SpeedServoBuffer.pop, h, hr]

theorem pop_some (b : SpeedServoBuffer) (out : SpeedServoTarget)
    (h : b.size ≠ 0) (hr : inBounds b.readIndex = true) :
    b.pop out =
      match popEvents (popped b) with
      | .error f => .error f
      | .ok ev =>
        .ok { ret := true, angle := b.angles b.readIndex, buffer := popped b, events := ev } := by
  cases hd : decide (b.size - 1 = 0) <;> cases he : b.emptyCallback <;>
    by_cases h10 : b.size - 1 = 10 <;>
    cases hdc : b.drainCallback <;>
    simp [SpeedServoBuffer.pop, popEvents, notify, popped, h, hr, hd, he, h10, hdc,
      SPEED_SERVO_BUFFER_HALF_SIZE]

/-- What a returning `pop` did: either the queue was empty and nothing
changed, or one target was taken at the read cursor. -/
theorem pop_ok_cases (b : SpeedServoBuffer) (out : SpeedServoTarget) (r : PopResult)
    (h : b.pop out = .ok r) :
    (r.ret = false ∧ b.size = 0 ∧ r.buffer = b ∧ r.angle = out ∧ r.events = []) ∨
    (r.ret = true ∧ b.size ≠ 0 ∧ inBounds b.readIndex = true ∧ r.buffer = popped b ∧
      r.angle = b.angles b.readIndex ∧ popEvents (popped b) = .ok r.events) := by
  by_cases hs : b.size = 0
  · rw [pop_empty b out hs] at h
    cases h
    simp [hs]
  · cases hr : inBounds b.readIndex
    · rw [pop_fault b out hs hr] at h
      cases h
    · rw [pop_some b out hs hr] at h
      cases he : popEvents (popped b) with
      | error f => rw [he] at h; cases h
      | ok ev =>
        rw [he] at h
        cases h
        simp [hs]

theorem inBounds_iff (i : Int) : inBounds i = true ↔ 0 ≤ i ∧ i < 20 := by
  simp [inBounds, SPEED_SERVO_BUFFER_SIZE]

theorem inBounds_succ_mod (i : Int) :
    inBounds ((i + 1) % SPEED_SERVO_BUFFER_SIZE) = true := by
  rw [inBounds_iff]
  simp only [SPEED_SERVO_BUFFER_SIZE]
  omega

/-! ## The queue: sequences of pushes and pops -/

/-- Pushing a list that fits: every push returns true, the count grows by the
length, the targets land at the write cursor onward and nothing else moves. -/
theorem pushAll_fits (ts : List SpeedServoTarget) :
    ∀ b : SpeedServoBuffer, inBounds b.writeIndex = true → 0 ≤ b.size →
      b.size + ts.length ≤ 20 →
      ∃ b2, b.pushAll ts = .ok (List.replicate ts.length true, b2) ∧
        b2.size = b.size + ts.length ∧
        b2.readIndex = b.readIndex ∧
        b2.writeIndex = (b.writeIndex + ts.length) % 20 ∧
        b2.drainCallback = b.drainCallback ∧
        b2.emptyCallback = b.emptyCallback ∧
        (∀ (i : Nat) (t : SpeedServoTarget), ts[i]? = some t →
          b2.angles ((b.writeIndex + i) % 20) = t) ∧
        (∀ j : Int, (∀ i : Nat, i < ts.length → j ≠ (b.writeIndex + i) % 20) →
          b2.angles j = b.angles j) := by
  induction ts with
  | nil =>
    intro b hw _ _
    refine ⟨b, rfl, by simp, rfl, ?_, rfl, rfl, by simp, by simp⟩
    rw [inBounds_iff] at hw
    simp only [List.length_nil, Nat.cast_zero, add_zero]
    omega
  | cons t ts ih =>
    intro b hw h0 hlen
    have hw2 := (inBounds_iff _).1 hw
    simp only [List.length_cons, Nat.cast_add, Nat.cast_one] at hlen
    have hne : b.size ≠ SPEED_SERVO_BUFFER_SIZE := by
      simp only [SPEED_SERVO_BUFFER_SIZE]
      omega
    have hp := push_room b t hne hw
    obtain ⟨b2, hrun, hsz, hrd, hwr, hdc, hec, hin, hout⟩ :=
      ih { b with
           angles := Function.update b.angles b.writeIndex t
           writeIndex := (b.writeIndex + 1) % SPEED_SERVO_BUFFER_SIZE
           size := b.size + 1 }
        (inBounds_succ_mod _) (by simp only; omega) (by simp only; omega)
    simp only [SPEED_SERVO_BUFFER_SIZE] at hsz hrd hwr hdc hec hin hout
    refine ⟨b2, ?_, ?_, hrd, ?_, hdc, hec, ?_, ?_⟩
    · simp only [SpeedServoBuffer.pushAll, hp, hrun, List.length_cons, List.replicate_succ]
    · rw [hsz]
      simp only [List.length_cons, Nat.cast_add, Nat.cast_one]
      omega
    · rw [hwr]
      simp only [List.length_cons, Nat.cast_add, Nat.cast_one]
      omega
    · intro i u hi
      cases i with
      | zero =>
        simp only [List.getElem?_cons_zero, Option.some.injEq] at hi
        have hfr := hout b.writeIndex (by
          intro k hk
          omega)
        simp only [Nat.cast_zero, add_zero]
        have hmod : b.writeIndex % 20 = b.writeIndex := by omega
        rw [hmod, hfr, Function.update_same, hi]
      | succ k =>
        simp only [List.getElem?_cons_succ] at hi
        have := hin k u hi
        have hidx : (b.writeIndex + ((k + 1 : Nat) : Int)) % 20
            = ((b.writeIndex + 1) % 20 + (k : Int)) % 20 := by
          push_cast
          omega
        rw [hidx]
        exact this
    · intro j hj
      have hj0 := hj 0 (by simp)
      simp only [Nat.cast_zero, add_zero] at hj0
      have hmod : b.writeIndex % 20 = b.writeIndex := by omega
      rw [hmod] at hj0
      have := hout j (by
        intro k hk
        have := hj (k + 1) (by simp only [List.length_cons]; omega)
        push_cast at this
        omega)
      rw [this, Function.update_noteq hj0]

/-- The flags, targets, counts and callbacks of `n` pops of a queue that holds
at least `n` targets and either has a drain callback or holds at most 10. -/
theorem popN_fits (dflt : SpeedServoTarget) :
    ∀ (n : Nat) (b : SpeedServoBuffer), inBounds b.readIndex = true → (n : Int) ≤ b.size →
      (b.drainCallback ≠ none ∨ b.size ≤ 10) →
      ∃ rs, SpeedServoBuffer.popN dflt n b = .ok rs ∧
        rs.map (fun r => r.ret) = List.replicate n true ∧
        rs.map (fun r => r.angle) =
          (List.range n).map (fun (i : Nat) => b.angles ((b.readIndex + (i : Int)) % 20)) ∧
        rs.map (fun r => r.buffer.size) =
          (List.range n).map (fun (i : Nat) => b.size - 1 - (i : Int)) ∧
        rs.map (fun r => Except.ok r.events) =
          (List.range n).map (fun (i : Nat) =>
            notify b.drainCallback b.emptyCallback (b.size - 1 - (i : Int))) := by
  intro n
  induction n with
  | zero =>
    intro b _ _ _
    exact ⟨[], rfl, by simp, by simp, by simp, by simp⟩
  | succ n ih =>
    intro b hr hn hd
    have hr2 := (inBounds_iff _).1 hr
    push_cast at hn
    have hne : b.size ≠ 0 := by omega
    have hp := pop_some b dflt hne hr
    have hev : ∃ ev, popEvents (popped b) = .ok ev := by
      unfold popEvents notify
      split
      · exact ⟨_, rfl⟩
      · split
        · rename_i h10
          simp only [popped, SPEED_SERVO_BUFFER_HALF_SIZE] at h10
          rcases hd with hd | hd
          · cases hdc : b.drainCallback with
            | none => exact absurd hdc hd
            | some cb =>
              simp only [popped, hdc]
              exact ⟨_, rfl⟩
          · omega
        · exact ⟨_, rfl⟩
    obtain ⟨ev, hev⟩ := hev
    rw [hev] at hp
    simp only at hp
    obtain ⟨rs, hrun, hret, hang, hsz, hevs⟩ :=
      ih (popped b) (inBounds_succ_mod _) (by simp only [popped]; omega)
        (by
          rcases hd with hd | hd
          · exact Or.inl hd
          · right
            simp only [popped]
            omega)
    refine ⟨{ ret := true, angle := b.angles b.readIndex, buffer := popped b,
              events := ev } :: rs, ?_, ?_, ?_, ?_, ?_⟩
    · simp only [SpeedServoBuffer.popN, hp, hrun]
    · simp only [List.map_cons, hret, List.replicate_succ]
    · simp only [List.map_cons, hang, List.range_succ_eq_map, List.map_map]
      simp only [Nat.cast_zero, add_zero]
      have hmod : b.readIndex % 20 = b.readIndex := by omega
      rw [hmod]
      congr 1
      apply List.map_congr_left
      intro i _
      simp only [popped, Function.comp, SPEED_SERVO_BUFFER_SIZE]
      congr 1
      push_cast
      omega
    · simp only [List.map_cons, hsz, List.range_succ_eq_map, List.map_map]
      simp only [popped, Nat.cast_zero, sub_zero]
      congr 1
      apply List.map_congr_left
      intro i _
      simp only [Function.comp]
      push_cast
      omega
    · simp only [List.map_cons, hevs, List.range_succ_eq_map, List.map_map]
      simp only [Nat.cast_zero, sub_zero]
      congr 1
      · rw [← hev]
        rfl
      · apply List.map_congr_left
        intro i _
        simp only [Function.comp, popped]
        congr 1
        push_cast
        omega

/-- Without a drain callback, popping a queue that holds 11 targets or more
down to 10 calls the null pointer. -/
theorem popN_null_drain (dflt : SpeedServoTarget) :
    ∀ (k n : Nat) (b : SpeedServoBuffer), inBounds b.readIndex = true →
      b.size = 11 + (k : Int) → k + 1 ≤ n → b.drainCallback = none →
      SpeedServoBuffer.popN dflt n b = .error Fault.nullCall := by
  intro k
  induction k with
  | zero =>
    intro n b hr hs hn hd
    obtain ⟨n, rfl⟩ : ∃ j, n = j + 1 := ⟨n - 1, by omega⟩
    have hne : b.size ≠ 0 := by omega
    have hp := pop_some b dflt hne hr
    have hev : popEvents (popped b) = .error Fault.nullCall := by
      simp [popEvents, notify, popped, hs, hd, SPEED_SERVO_BUFFER_HALF_SIZE]
    rw [hev] at hp
    simp only at hp
    simp only [SpeedServoBuffer.popN, hp]
  | succ k ih =>
    intro n b hr hs hn hd
    obtain ⟨n, rfl⟩ : ∃ j, n = j + 1 := ⟨n - 1, by omega⟩
    push_cast at hs
    have hne : b.size ≠ 0 := by omega
    have hp := pop_some b dflt hne hr
    have h0 : ¬ (b.size - 1 = 0) := by omega
    have h10 : ¬ (b.size - 1 = 10) := by omega
    have hev : popEvents (popped b) = .ok [] := by
      simp [popEvents, notify, popped, h0, h10, SPEED_SERVO_BUFFER_HALF_SIZE]
    rw [hev] at hp
    simp only at hp
    have := ih n (popped b) (inBounds_succ_mod _) (by simp only [popped]; omega)
      (by omega) hd
    simp only [SpeedServoBuffer.popN, hp, this]

/-- First in, first out: pushing at most 20 targets into a newly constructed
queue and popping as many returns true every time and hands the targets back in
the order of the pushes, provided a drain callback is registered or at most 10
targets are pushed. -/
theorem fifo_pop_order (mem : Int → SpeedServoTarget) (d e : Option Nat)
    (ts : List SpeedServoTarget) (dflt : SpeedServoTarget)
    (hlen : ts.length ≤ 20) (hd : d ≠ none ∨ ts.length ≤ 10) :
    ∃ b1 rs, (((SpeedServoBuffer.new mem).onDrain d).onEmpty e).pushAll ts
        = .ok (List.replicate ts.length true, b1) ∧
      SpeedServoBuffer.popN dflt ts.length b1 = .ok rs ∧
      rs.map (fun r => r.ret) = List.replicate ts.length true ∧
      rs.map (fun r => r.angle) = ts := by
  obtain ⟨b1, hrun, hsz, hrd, -, hdc, -, hin, -⟩ :=
    pushAll_fits ts (((SpeedServoBuffer.new mem).onDrain d).onEmpty e) (by rfl)
      (by simp [SpeedServoBuffer.new, SpeedServoBuffer.onDrain, SpeedServoBuffer.onEmpty])
      (by
        simp only [SpeedServoBuffer.new, SpeedServoBuffer.onDrain, SpeedServoBuffer.onEmpty]
        omega)
  simp only [SpeedServoBuffer.new, SpeedServoBuffer.onDrain, SpeedServoBuffer.onEmpty,
    zero_add] at hsz hrd hdc hin
  obtain ⟨rs, hpop, hret, hang, -⟩ :=
    popN_fits dflt ts.length b1 (by rw [hrd]; rfl) (by omega)
      (by
        rcases hd with hd | hd
        · left
          rw [hdc]
          exact hd
        · right
          omega)
  refine ⟨b1, rs, hrun, hpop, hret, ?_⟩
  rw [hang, hrd]
  apply List.ext_getElem?
  intro i
  by_cases hi : i < ts.length
  · have h1 : ts[i]? = some ts[i] := List.getElem?_eq_getElem hi
    rw [h1]
    simp only [List.getElem?_map, List.getElem?_range hi, Option.map_some', zero_add]
    rw [hin i ts[i] h1]
  · have h1 : ts[i]? = none := List.getElem?_eq_none (by omega)
    rw [h1]
    simp only [List.getElem?_map, Option.map_eq_none']
    exact List.getElem?_eq_none (by simp only [List.length_range]; omega)

/-! ## Claim C1 -/

/-- C1 (FIFO order) on the code: a newly constructed queue has no drain
callback, and when between 11 and 20 targets are pushed into it (every push
returning true) and then popped, the pop that brings the count down to 10 calls
the null drain pointer, so the pops do not all return.  (With a drain callback
registered, or with at most 10 targets, the order is first in, first out: see
`fifo_pop_order`.) -/
theorem C1_fifo_null_drain_call (mem : Int → SpeedServoTarget) (e : Option Nat)
    (ts : List SpeedServoTarget) (dflt : SpeedServoTarget)
    (h11 : 11 ≤ ts.length) (h20 : ts.length ≤ 20) :
    ∃ b1, ((SpeedServoBuffer.new mem).onEmpty e).pushAll ts
        = .ok (List.replicate ts.length true, b1) ∧
      SpeedServoBuffer.popN dflt ts.length b1 = .error Fault.nullCall := by
  obtain ⟨b1, hrun, hsz, hrd, -, hdc, -⟩ :=
    pushAll_fits ts ((SpeedServoBuffer.new mem).onEmpty e) (by rfl)
      (by simp [SpeedServoBuffer.new, SpeedServoBuffer.onEmpty])
      (by
        simp only [SpeedServoBuffer.new, SpeedServoBuffer.onEmpty]
        omega)
  simp only [SpeedServoBuffer.new, SpeedServoBuffer.onEmpty, zero_add] at hsz hrd hdc
  refine ⟨b1, hrun, ?_⟩
  exact popN_null_drain dflt (ts.length - 11) ts.length b1 (by rw [hrd]; rfl)
    (by rw [hsz]; omega) (by omega) hdc

/-- C1 at a concrete input: eleven targets pushed into a new queue. -/
theorem C1_fifo_null_drain_call_witness :
    ∃ b1, ((SpeedServoBuffer.new (fun _ => ⟨0, 0⟩)).onEmpty none).pushAll
        ((List.range 11).map (fun i => ⟨(i : Int), 100⟩))
        = .ok (List.replicate ((List.range 11).map
            (fun i => (⟨(i : Int), 100⟩ : SpeedServoTarget))).length true, b1) ∧
      SpeedServoBuffer.popN ⟨0, 0⟩ ((List.range 11).map
        (fun i => (⟨(i : Int), 100⟩ : SpeedServoTarget))).length b1
        = .error Fault.nullCall :=
  C1_fifo_null_drain_call (fun _ => ⟨0, 0⟩) none
    ((List.range 11).map (fun i => ⟨(i : Int), 100⟩)) ⟨0, 0⟩ (by decide) (by decide)

/-! ## Claims C2 and C3 -/

/-- C2 (capacity bound).  In every queue state `push` returns false exactly
when the count is 20, and a push that returns false hands back the queue it was
given (count, cursors, stored targets and callbacks unchanged) and calls no
callback.  After 20 pushes into a newly constructed queue (whatever callbacks
were registered) each of them returned true and the 21st push returns false and
leaves the queue as it is. -/
theorem C2_push_capacity_bound :
    (∀ (b : SpeedServoBuffer) (t : SpeedServoTarget),
      (∃ r, b.push t = .ok r ∧ r.ret = false) ↔ b.size = SPEED_SERVO_BUFFER_SIZE) ∧
    (∀ (b : SpeedServoBuffer) (t : SpeedServoTarget) (r : PushResult),
      b.push t = .ok r → r.ret = false → r.buffer = b ∧ r.events = []) ∧
    (∀ (mem : Int → SpeedServoTarget) (d e : Option Nat) (ts : List SpeedServoTarget)
      (t : SpeedServoTarget), ts.length = 20 →
      ∃ b20, (((SpeedServoBuffer.new mem).onDrain d).onEmpty e).pushAll ts
          = .ok (List.replicate 20 true, b20) ∧
        b20.size = 20 ∧
        b20.push t = .ok { ret := false, buffer := b20, events := [] }) := by
  refine ⟨?_, ?_, ?_⟩
  · intro b t
    constructor
    · rintro ⟨r, hr, hf⟩
      rcases (push_ok_cases b t r hr).2 with h | h
      · exact h.2.1
      · rw [h.1] at hf
        cases hf
    · intro h
      exact ⟨_, push_full b t h, rfl⟩
  · intro b t r hr hf
    have h := push_ok_cases b t r hr
    rcases h.2 with h2 | h2
    · exact ⟨h2.2.2, h.1⟩
    · rw [h2.1] at hf
      cases hf
  · intro mem d e ts t hlen
    obtain ⟨b2, hrun, hsz, -⟩ :=
      pushAll_fits ts (((SpeedServoBuffer.new mem).onDrain d).onEmpty e)
        (by rfl) (by simp [SpeedServoBuffer.new, SpeedServoBuffer.onDrain,
          SpeedServoBuffer.onEmpty])
        (by simp [SpeedServoBuffer.new, SpeedServoBuffer.onDrain,
          SpeedServoBuffer.onEmpty, hlen])
    rw [hlen] at hrun
    have hsz2 : b2.size = 20 := by
      rw [hsz, hlen]
      simp [SpeedServoBuffer.new, SpeedServoBuffer.onDrain, SpeedServoBuffer.onEmpty]
    exact ⟨b2, hrun, hsz2, push_full b2 t hsz2⟩

/-- C2 at a concrete input: twenty-one pushes of one target into a new queue. -/
theorem C2_push_capacity_bound_witness :
    ∃ b20, (((SpeedServoBuffer.new (fun _ => ⟨0, 0⟩)).onDrain none).onEmpty none).pushAll
        (List.replicate 20 ⟨45, 90⟩) = .ok (List.replicate 20 true, b20) ∧
      b20.size = 20 ∧
      b20.push ⟨7, 7⟩ = .ok { ret := false, buffer := b20, events := [] } :=
  C2_push_capacity_bound.2.2 (fun _ => ⟨0, 0⟩) none none (List.replicate 20 ⟨45, 90⟩)
    ⟨7, 7⟩ (by decide)

/-- C3 (pop of an empty queue).  In every queue state `pop` returns false
exactly when the count is 0, and a pop that returns false hands back the queue
it was given (count and cursors unchanged), leaves the caller's variable as it
was and calls no callback. -/
theorem C3_pop_empty_noop :
    (∀ (b : SpeedServoBuffer) (out : SpeedServoTarget),
      (∃ r, b.pop out = .ok r ∧ r.ret = false) ↔ b.size = 0) ∧
    (∀ (b : SpeedServoBuffer) (out : SpeedServoTarget) (r : PopResult),
      b.pop out = .ok r → r.ret = false →
        r.buffer = b ∧ r.angle = out ∧ r.events = []) := by
  refine ⟨?_, ?_⟩
  · intro b out
    constructor
    · rintro ⟨r, hr, hf⟩
      rcases pop_ok_cases b out r hr with h | h
      · exact h.2.1
      · rw [h.1] at hf
        cases hf
    · intro h
      exact ⟨_, pop_empty b out h, rfl⟩
  · intro b out r hr hf
    rcases pop_ok_cases b out r hr with h | h
    · exact ⟨h.2.2.1, h.2.2.2.1, h.2.2.2.2⟩
    · rw [h.1] at hf
      cases hf

/-- C3 at a concrete input: a pop of a newly constructed queue. -/
theorem C3_pop_empty_noop_witness :
    (SpeedServoBuffer.new (fun _ => ⟨0, 0⟩)).pop ⟨3, 4⟩
        = .ok { ret := false, angle := ⟨3, 4⟩,
                buffer := SpeedServoBuffer.new (fun _ => ⟨0, 0⟩), events := [] } ∧
      (SpeedServoBuffer.new (fun _ => ⟨0, 0⟩)) = SpeedServoBuffer.new (fun _ => ⟨0, 0⟩) ∧
      (⟨3, 4⟩ : SpeedServoTarget) = ⟨3, 4⟩ ∧ ([] : List Event) = [] :=
  ⟨rfl, C3_pop_empty_noop.2 (SpeedServoBuffer.new (fun _ => ⟨0, 0⟩)) ⟨3, 4⟩
    { ret := false, angle := ⟨3, 4⟩, buffer := SpeedServoBuffer.new (fun _ => ⟨0, 0⟩),
      events := [] } rfl rfl⟩

/-! ## Claim C4 -/

/-- The bounds of the count are kept by every call that returns. -/
theorem call_size_bounds (b b2 : SpeedServoBuffer) (c : BufferCall)
    (h : b.call c = .ok b2) (h0 : 0 ≤ b.size) (h20 : b.size ≤ 20) :
    0 ≤ b2.size ∧ b2.size ≤ 20 := by
  cases c with
  | push t =>
    simp only [SpeedServoBuffer.call] at h
    cases hp : b.push t with
    | error f => rw [hp] at h; cases h
    | ok r =>
      rw [hp] at h
      cases h
      rcases (push_ok_cases b t r hp).2 with h1 | h1
      · rw [h1.2.2]
        exact ⟨h0, h20⟩
      · have hne := h1.2.1
        simp only [SPEED_SERVO_BUFFER_SIZE] at hne
        rw [h1.2.2.2.1]
        omega
  | pop out =>
    simp only [SpeedServoBuffer.call] at h
    cases hp : b.pop out with
    | error f => rw [hp] at h; cases h
    | ok r =>
      rw [hp] at h
      cases h
      rcases pop_ok_cases b out r hp with h1 | h1
      · rw [h1.2.2.1]
        exact ⟨h0, h20⟩
      · have hne := h1.2.1
        rw [h1.2.2.2.1]
        simp only [popped]
        omega
  | onDrain cb =>
    simp only [SpeedServoBuffer.call] at h
    cases h
    exact ⟨h0, h20⟩
  | onEmpty cb =>
    simp only [SpeedServoBuffer.call] at h
    cases h
    exact ⟨h0, h20⟩

theorem runCalls_size_bounds (cs : List BufferCall) :
    ∀ b b2 : SpeedServoBuffer, b.runCalls cs = .ok b2 → 0 ≤ b.size → b.size ≤ 20 →
      0 ≤ b2.size ∧ b2.size ≤ 20 := by
  induction cs with
  | nil =>
    intro b b2 h h0 h20
    simp only [SpeedServoBuffer.runCalls] at h
    cases h
    exact ⟨h0, h20⟩
  | cons c cs ih =>
    intro b b2 h h0 h20
    simp only [SpeedServoBuffer.runCalls] at h
    cases hc : b.call c with
    | error f => rw [hc] at h; cases h
    | ok b1 =>
      rw [hc] at h
      have hb := call_size_bounds b b1 c hc h0 h20
      exact ih b1 b2 h hb.1 hb.2

/-- C4 (count invariant).  Every queue reached from a newly constructed one by
a finite sequence of calls of `push`, `pop` and the two setters, each call
succeeding or failing, has `0 <= size <= 20`, and `isEmpty` returns true on it
exactly when `size == 0`. -/
theorem C4_count_invariant (mem : Int → SpeedServoTarget) (cs : List BufferCall)
    (b : SpeedServoBuffer) (h : (SpeedServoBuffer.new mem).runCalls cs = .ok b) :
    0 ≤ b.size ∧ b.size ≤ SPEED_SERVO_BUFFER_SIZE ∧ (b.isEmpty = true ↔ b.size = 0) := by
  have hb := runCalls_size_bounds cs (SpeedServoBuffer.new mem) b h
    (by simp [SpeedServoBuffer.new]) (by simp [SpeedServoBuffer.new])
  refine ⟨hb.1, hb.2, ?_⟩
  simp [SpeedServoBuffer.isEmpty]

/-- C4 at a concrete input: a failing pop, two pushes and a pop. -/
theorem C4_count_invariant_witness :
    0 ≤ (1 : Int) ∧ (1 : Int) ≤ SPEED_SERVO_BUFFER_SIZE ∧
      ((SpeedServoBuffer.isEmpty
        { angles := Function.update (Function.update (fun _ => ⟨0, 0⟩) 0 ⟨1, 2⟩) 1 ⟨3, 4⟩,
          size := 1, readIndex := 1, writeIndex := 2,
          drainCallback := none, emptyCallback := none }) = true ↔ (1 : Int) = 0) :=
  C4_count_invariant (fun _ => ⟨0, 0⟩)
    [BufferCall.pop ⟨9, 9⟩, BufferCall.push ⟨1, 2⟩, BufferCall.push ⟨3, 4⟩,
      BufferCall.pop ⟨9, 9⟩]
    { angles := Function.update (Function.update (fun _ => ⟨0, 0⟩) 0 ⟨1, 2⟩) 1 ⟨3, 4⟩,
      size := 1, readIndex := 1, writeIndex := 2,
      drainCallback := none, emptyCallback := none } rfl

/-! ## Claims C5 and C6 -/

/-- C5 (drain threshold).  With a drain callback registered, a pop that
returns true calls a drain callback exactly when the count it leaves is 10; it
then calls the registered one, once, as its only callback, with argument
`20 - count = 10`.  Filling a newly constructed queue with 20 targets and
popping 10 times gives counts 19 down to 10, no callback at all on the first
nine pops and the single drain call with argument 10 on the tenth. -/
theorem C5_drain_threshold :
    (∀ (b : SpeedServoBuffer) (out : SpeedServoTarget) (r : PopResult) (cb : Nat),
      b.drainCallback = some cb → b.pop out = .ok r → r.ret = true →
        ((∃ c n, Event.drain c n ∈ r.events) ↔
          r.buffer.size = SPEED_SERVO_BUFFER_HALF_SIZE) ∧
        (r.buffer.size = SPEED_SERVO_BUFFER_HALF_SIZE →
          r.events = [Event.drain cb (SPEED_SERVO_BUFFER_SIZE - r.buffer.size)] ∧
          SPEED_SERVO_BUFFER_SIZE - r.buffer.size = 10)) ∧
    (∀ (mem : Int → SpeedServoTarget) (cb : Nat) (e : Option Nat)
      (ts : List SpeedServoTarget) (dflt : SpeedServoTarget), ts.length = 20 →
      ∃ b20 rs, (((SpeedServoBuffer.new mem).onDrain (some cb)).onEmpty e).pushAll ts
          = .ok (List.replicate 20 true, b20) ∧
        SpeedServoBuffer.popN dflt 10 b20 = .ok rs ∧
        rs.map (fun r => r.ret) = List.replicate 10 true ∧
        rs.map (fun r => r.buffer.size) = [19, 18, 17, 16, 15, 14, 13, 12, 11, 10] ∧
        rs.map (fun r => r.events)
          = [[], [], [], [], [], [], [], [], [], [Event.drain cb 10]]) := by
  refine ⟨?_, ?_⟩
  · intro b out r cb hd hp hret
    rcases pop_ok_cases b out r hp with h | h
    · rw [h.1] at hret
      cases hret
    · obtain ⟨-, -, -, hbuf, -, hev⟩ := h
      rw [hbuf]
      simp only [popEvents, notify, popped, hd] at hev
      simp only [popped, SPEED_SERVO_BUFFER_HALF_SIZE, SPEED_SERVO_BUFFER_SIZE] at *
      by_cases h10 : b.size - 1 = 10
      · have h0 : ¬ (b.size - 1 = 0) := by omega
        have hdec : decide ((10 : Int) = 0) = false := by decide
        simp only [h10, hdec, if_true, Except.ok.injEq] at hev
        rw [← hev]
        simp [h10]
      · simp only [h10, if_false] at hev
        split at hev
        · simp only [Except.ok.injEq] at hev
          rw [← hev]
          simp [h10]
        · simp only [Except.ok.injEq] at hev
          rw [← hev]
          simp [h10]
  · intro mem cb e ts dflt hlen
    obtain ⟨b1, hrun, hsz, hrd, -, hdc, hec, -⟩ :=
      pushAll_fits ts (((SpeedServoBuffer.new mem).onDrain (some cb)).onEmpty e) (by rfl)
        (by simp [SpeedServoBuffer.new, SpeedServoBuffer.onDrain, SpeedServoBuffer.onEmpty])
        (by
          simp only [SpeedServoBuffer.new, SpeedServoBuffer.onDrain,
            SpeedServoBuffer.onEmpty]
          omega)
    simp only [SpeedServoBuffer.new, SpeedServoBuffer.onDrain, SpeedServoBuffer.onEmpty,
      zero_add] at hsz hrd hdc hec
    rw [hlen] at hrun hsz
    obtain ⟨rs, hpop, hret, -, hsizes, hevs⟩ :=
      popN_fits dflt 10 b1 (by rw [hrd]; rfl) (by rw [hsz]; decide)
        (by left; rw [hdc]; simp)
    refine ⟨b1, rs, hrun, hpop, hret, ?_, ?_⟩
    · rw [hsizes, hsz]
      decide
    · rw [hsz, hdc, hec] at hevs
      have hinj : Function.Injective
          (Except.ok : List Event → Except Fault (List Event)) := by
        intro x y hxy
        cases hxy
        rfl
      apply List.map_injective_iff.2 hinj
      rw [List.map_map]
      refine hevs.trans ?_
      cases e <;> rfl

/-- C5 at a concrete input: a queue of 11 targets with drain callback 7. -/
theorem C5_drain_threshold_witness :
    ((∃ c n, Event.drain c n ∈ [Event.drain 7 10]) ↔
        (10 : Int) = SPEED_SERVO_BUFFER_HALF_SIZE) ∧
      ((10 : Int) = SPEED_SERVO_BUFFER_HALF_SIZE →
        [Event.drain 7 10] = [Event.drain 7 (SPEED_SERVO_BUFFER_SIZE - 10)] ∧
        SPEED_SERVO_BUFFER_SIZE - (10 : Int) = 10) :=
  C5_drain_threshold.1
    { angles := fun _ => ⟨1, 2⟩, size := 11, readIndex := 19, writeIndex := 10,
      drainCallback := some 7, emptyCallback := none }
    ⟨0, 0⟩
    { ret := true, angle := ⟨1, 2⟩,
      buffer := { angles := fun _ => ⟨1, 2⟩, size := 10, readIndex := 0, writeIndex := 10,
                  drainCallback := some 7, emptyCallback := none },
      events := [Event.drain 7 10] }
    7 rfl rfl rfl

/-- C6 (empty notification).  With an empty callback registered, a pop that
returns true calls an empty callback exactly when the count it leaves is 0; it
then calls the registered one, once, as its only callback (so no drain call).
No push calls a callback.  Pushing one target into an empty queue and popping it
returns that target and calls the empty callback once and nothing else. -/
theorem C6_empty_notification :
    (∀ (b : SpeedServoBuffer) (out : SpeedServoTarget) (r : PopResult) (cb : Nat),
      b.emptyCallback = some cb → b.pop out = .ok r → r.ret = true →
        ((∃ c, Event.empty c ∈ r.events) ↔ r.buffer.size = 0) ∧
        (r.buffer.size = 0 → r.events = [Event.empty cb])) ∧
    (∀ (b : SpeedServoBuffer) (t : SpeedServoTarget) (r : PushResult),
      b.push t = .ok r → r.events = []) ∧
    (∀ (b : SpeedServoBuffer) (t out : SpeedServoTarget) (cb : Nat),
      b.size = 0 → inBounds b.writeIndex = true → b.readIndex = b.writeIndex →
      b.emptyCallback = some cb →
      ∃ r1 r2, b.push t = .ok r1 ∧ r1.ret = true ∧ r1.events = [] ∧
        r1.buffer.pop out = .ok r2 ∧ r2.ret = true ∧ r2.angle = t ∧
        r2.events = [Event.empty cb]) := by
  refine ⟨?_, ?_, ?_⟩
  · intro b out r cb he hp hret
    rcases pop_ok_cases b out r hp with h | h
    · rw [h.1] at hret
      cases hret
    · obtain ⟨-, -, -, hbuf, -, hev⟩ := h
      rw [hbuf]
      simp only [popEvents, notify, popped, he] at hev
      simp only [popped, SPEED_SERVO_BUFFER_HALF_SIZE, SPEED_SERVO_BUFFER_SIZE] at *
      by_cases h0 : b.size - 1 = 0
      · simp only [h0, decide_True, Except.ok.injEq] at hev
        rw [← hev]
        simp [h0]
      · simp only [h0, decide_False] at hev
        split at hev
        · split at hev
          · simp only [Except.ok.injEq] at hev
            rw [← hev]
            simp [h0]
          · cases hev
        · simp only [Except.ok.injEq] at hev
          rw [← hev]
          simp [h0]
  · intro b t r hp
    exact (push_ok_cases b t r hp).1
  · intro b t out cb hs hw hrw he
    have hne : b.size ≠ SPEED_SERVO_BUFFER_SIZE := by
      rw [hs]
      decide
    have hpop := pop_some
      { b with
        angles := Function.update b.angles b.writeIndex t
        writeIndex := (b.writeIndex + 1) % SPEED_SERVO_BUFFER_SIZE
        size := b.size + 1 } out (by simp [hs]) (by simpa [hrw] using hw)
    have hev : popEvents (popped
        { b with
          angles := Function.update b.angles b.writeIndex t
          writeIndex := (b.writeIndex + 1) % SPEED_SERVO_BUFFER_SIZE
          size := b.size + 1 }) = .ok [Event.empty cb] := by
      simp [popEvents, notify, popped, hs, he]
    rw [hev] at hpop
    simp only at hpop
    refine ⟨_, _, push_room b t hne hw, rfl, rfl, hpop, rfl, ?_, rfl⟩
    rw [hrw, Function.update_same]

/-- C6 at a concrete input: one push and one pop on a new queue with empty
callback 8. -/
theorem C6_empty_notification_witness :
    ∃ r1 r2, ((SpeedServoBuffer.new (fun _ => ⟨0, 0⟩)).onEmpty (some 8)).push ⟨30, 60⟩
        = .ok r1 ∧ r1.ret = true ∧ r1.events = [] ∧
      r1.buffer.pop ⟨0, 0⟩ = .ok r2 ∧ r2.ret = true ∧ r2.angle = ⟨30, 60⟩ ∧
      r2.events = [Event.empty 8] :=
  C6_empty_notification.2.2 ((SpeedServoBuffer.new (fun _ => ⟨0, 0⟩)).onEmpty (some 8))
    ⟨30, 60⟩ ⟨0, 0⟩ 8 rfl rfl rfl rfl

/-! ## The machine: `setup` and `transition` (claims C7 and C8) -/

/-- C7 (double setup) on the code: `setup()` only requests `Idle`, so until the
next `loop()` the state is still `Uninitialized` and a second `setup()` passes
the guard: it returns true again and attaches and writes the servo a second
time. -/
theorem C7_double_setup_before_loop (pin : Int) (mem : Int → SpeedServoTarget)
    (adj : AdjustingState) :
    (ServoMod.new pin mem adj).setup.1 = true ∧
      (ServoMod.new pin mem adj).setup.2.state = State.Uninitialized ∧
      (ServoMod.new pin mem adj).setup.2.nextState = State.Idle ∧
      (ServoMod.new pin mem adj).setup.2.setup.1 = true ∧
      (ServoMod.new pin mem adj).setup.2.setup.2.servo =
        [ServoOp.attach pin, ServoOp.write 0, ServoOp.attach pin, ServoOp.write 0] := by
  simp [ServoMod.new, ServoMod.setup, ServoMod.transition]

/-- Once a tick has run after the first `setup()`, a second `setup()` returns
false and changes nothing. -/
theorem setup_after_loop (pin : Int) (mem : Int → SpeedServoTarget)
    (adj : AdjustingState) (t : Tick) :
    ∃ m ev, (ServoMod.new pin mem adj).setup.2.loop t = .ok (m, ev) ∧
      m.state = State.Idle ∧ m.setup = (false, m) := by
  refine ⟨_, _, rfl, rfl, rfl⟩

/-- C8 (idempotent transition request).  A request for the current state or for
the pending state returns false and leaves the machine as it is; any other
request returns true, sets `nextState` to the requested state and leaves
`state`, and everything else, as it is. -/
theorem C8_transition_request (m : ServoMod) (r : State) :
    ((r = m.state ∨ r = m.nextState) → m.transition r = (false, m)) ∧
    (¬ (r = m.state ∨ r = m.nextState) →
      m.transition r = (true, { m with nextState := r }) ∧
      (m.transition r).2.nextState = r ∧ (m.transition r).2.state = m.state) := by
  constructor
  · intro h
    simp [ServoMod.transition, h]
  · intro h
    simp [ServoMod.transition, h]

/-- C8 at a concrete input: requests for `Idle`, `Adjusting` and
`Uninitialized` on a machine in `Idle` with `Adjusting` pending. -/
theorem C8_transition_request_witness :
    ({ idleWith 0 ⟨5, 10⟩ with nextState := State.Adjusting }.transition State.Idle
        = (false, { idleWith 0 ⟨5, 10⟩ with nextState := State.Adjusting })) ∧
      ({ idleWith 0 ⟨5, 10⟩ with nextState := State.Adjusting }.transition
          State.Uninitialized
        = (true, { { idleWith 0 ⟨5, 10⟩ with nextState := State.Adjusting } with
                   nextState := State.Uninitialized }) ∧
        ({ idleWith 0 ⟨5, 10⟩ with nextState := State.Adjusting }.transition
          State.Uninitialized).2.nextState = State.Uninitialized ∧
        ({ idleWith 0 ⟨5, 10⟩ with nextState := State.Adjusting }.transition
          State.Uninitialized).2.state
          = ({ idleWith 0 ⟨5, 10⟩ with nextState := State.Adjusting } : ServoMod).state) :=
  ⟨(C8_transition_request { idleWith 0 ⟨5, 10⟩ with nextState := State.Adjusting }
      State.Idle).1 (Or.inl rfl),
    (C8_transition_request { idleWith 0 ⟨5, 10⟩ with nextState := State.Adjusting }
      State.Uninitialized).2 (by decide)⟩

/-! ## The machine: one tick -/

theorem subUL_millis (x y : Nat) (h1 : y ≤ x) (h2 : x < y + ULONG_MOD) :
    subUL (millis x) (millis y) = x - y := by
  unfold subUL millis ULONG_MOD at *
  omega

theorem toUL_pos (s : Int) (h1 : 1 ≤ s) (h2 : isInt s) : toUL s = s.toNat := by
  unfold toUL ULONG_MOD
  unfold isInt at h2
  have : s % ((4294967296 : Nat) : Int) = s := Int.emod_eq_of_lt (by omega) (by omega)
  rw [this]

theorem toUL_ne_zero (s : Int) (h1 : s ≠ 0) (h2 : isInt s) : toUL s ≠ 0 := by
  unfold toUL ULONG_MOD
  unfold isInt at h2
  omega

theorem interval_pos (s : Int) (h1 : 1 ≤ s) (h2 : isInt s) :
    1000 / toUL s = (1000 / s).toNat := by
  rw [toUL_pos s h1 h2]
  obtain ⟨k, rfl⟩ := Int.eq_ofNat_of_zero_le (by omega : 0 ≤ s)
  simp only [Int.toNat_ofNat]
  have : (1000 : Int) / (k : Int) = ((1000 / k : Nat) : Int) := by norm_cast
  rw [this, Int.toNat_ofNat]

/-- A tick in `Idle` with nothing pending and a non-empty queue requests
`Adjusting` and does nothing else. -/
theorem loop_idle_request (m : ServoMod) (t : Tick)
    (hst : m.state = State.Idle) (hnx : m.nextState = State.Idle)
    (hsz : m.buffer.size ≠ 0) :
    m.loop t = .ok ({ m with nextState := State.Adjusting }, []) := by
  simp [ServoMod.loop, ServoMod.stateDo, ServoMod.idleDo, ServoMod.transition,
    SpeedServoBuffer.isEmpty, hst, hnx, hsz]

/-- A tick in `Idle` with nothing pending and an empty queue does nothing. -/
theorem loop_idle_rest (m : ServoMod) (t : Tick)
    (hst : m.state = State.Idle) (hnx : m.nextState = State.Idle)
    (hsz : m.buffer.size = 0) :
    m.loop t = .ok (m, []) := by
  simp [ServoMod.loop, ServoMod.stateDo, ServoMod.idleDo,
    SpeedServoBuffer.isEmpty, hst, hnx, hsz]

/-- A tick in `Idle` with `Adjusting` pending and a queue of one target: the
target is popped, the interval computed, and the first step taken at once. -/
theorem loop_enter_adjusting (m : ServoMod) (t : Tick)
    (hst : m.state = State.Idle) (hnx : m.nextState = State.Adjusting)
    (hsz : m.buffer.size = 1) (hr : inBounds m.buffer.readIndex = true)
    (hsp : toUL (m.buffer.angles m.buffer.readIndex).speed ≠ 0) :
    ∃ ev, m.loop t = .ok
      (ServoMod.adjustingStep
        { m with
          state := State.Adjusting
          buffer := popped m.buffer
          adjustingState :=
            { target := m.buffer.angles m.buffer.readIndex
              lastMillis := m.adjustingState.lastMillis
              firstIter := false
              intervalMillis := 1000 / toUL (m.buffer.angles m.buffer.readIndex).speed } }
        t, ev) := by
  have hp := pop_some m.buffer m.adjustingState.target (by rw [hsz]; decide) hr
  have hev : ∃ ev, popEvents (popped m.buffer) = .ok ev := by
    cases he : m.buffer.emptyCallback <;>
      simp [popEvents, notify, popped, hsz, he, SPEED_SERVO_BUFFER_HALF_SIZE]
  obtain ⟨ev, hev⟩ := hev
  rw [hev] at hp
  simp only at hp
  refine ⟨ev, ?_⟩
  simp [ServoMod.loop, ServoMod.stateExit, ServoMod.stateEntry, ServoMod.adjustingEntry,
    ServoMod.stateDo, ServoMod.adjustingDo, hst, hnx, hp, hsp]

/-- A tick in `Adjusting` after the first step, once the interval has passed on
the clock: the step is taken. -/
theorem loop_adjusting_step (m : ServoMod) (t : Tick)
    (hst : m.state = State.Adjusting) (hnx : m.nextState = State.Adjusting)
    (hfi : m.adjustingState.firstIter = false)
    (hiv : m.adjustingState.intervalMillis
      ≤ subUL (millis t.check) m.adjustingState.lastMillis) :
    m.loop t = .ok (m.adjustingStep t, []) := by
  simp [ServoMod.loop, ServoMod.stateDo, ServoMod.adjustingDo, hst, hnx, hfi,
    Nat.not_lt.2 hiv]

/-- A tick in `Adjusting` after the first step, before the interval has passed
on the clock: nothing happens. -/
theorem loop_adjusting_wait (m : ServoMod) (t : Tick)
    (hst : m.state = State.Adjusting) (hnx : m.nextState = State.Adjusting)
    (hfi : m.adjustingState.firstIter = false)
    (hiv : subUL (millis t.check) m.adjustingState.lastMillis
      < m.adjustingState.intervalMillis) :
    m.loop t = .ok (m, []) := by
  simp [ServoMod.loop, ServoMod.stateDo, ServoMod.adjustingDo, hst, hnx, hfi, hiv]

/-- A tick in `Adjusting` with `Idle` pending and an empty queue: the machine
becomes `Idle` and does nothing else. -/
theorem loop_leave_adjusting (m : ServoMod) (t : Tick)
    (hst : m.state = State.Adjusting) (hnx : m.nextState = State.Idle)
    (hsz : m.buffer.size = 0) :
    m.loop t = .ok ({ m with state := State.Idle }, []) := by
  simp [ServoMod.loop, ServoMod.stateExit, ServoMod.adjustingExit, ServoMod.stateEntry,
    ServoMod.stateDo, ServoMod.idleDo, SpeedServoBuffer.isEmpty, hst, hnx, hsz]

theorem adjustingStep_up (m : ServoMod) (t : Tick)
    (h : m.angle < m.adjustingState.target.angle) :
    m.adjustingStep t =
      { m with
        angle := m.angle + 1
        servo := m.servo ++ [ServoOp.write (m.angle + 1)]
        adjustingState := { m.adjustingState with lastMillis := millis t.stamp } } := by
  simp [ServoMod.adjustingStep, h]

theorem adjustingStep_down (m : ServoMod) (t : Tick)
    (h : m.adjustingState.target.angle < m.angle) :
    m.adjustingStep t =
      { m with
        angle := m.angle - 1
        servo := m.servo ++ [ServoOp.write (m.angle - 1)]
        adjustingState := { m.adjustingState with lastMillis := millis t.stamp } } := by
  have h2 : ¬ (m.angle < m.adjustingState.target.angle) := by omega
  simp [ServoMod.adjustingStep, h, h2]

theorem adjustingStep_at (m : ServoMod) (t : Tick)
    (h : m.adjustingState.target.angle = m.angle) (hst : m.state = State.Adjusting)
    (hnx : m.nextState = State.Adjusting) :
    m.adjustingStep t = { m with nextState := State.Idle } := by
  simp [ServoMod.adjustingStep, ServoMod.transition, h, hst, hnx]

theorem runTicks_succ (clk : Nat → Tick) (n : Nat) (m x y : ServoMod) (ev ev2 : List Event)
    (h1 : ServoMod.runTicks clk n m = .ok (x, ev)) (h2 : x.loop (clk n) = .ok (y, ev2)) :
    ServoMod.runTicks clk (n + 1) m = .ok (y, ev ++ ev2) := by
  simp only [ServoMod.runTicks, h1, h2]

/-! ## The machine: runs of ticks (claims C9 and C10) -/

/-- A machine that a tick leaves as it is stays as it is for the rest of a run. -/
theorem runTicks_stable (clk : Nat → Tick) (m x : ServoMod) (ev : List Event) (n0 : Nat)
    (h0 : ServoMod.runTicks clk n0 m = .ok (x, ev))
    (hfix : ∀ t, x.loop t = .ok (x, [])) :
    ∀ n, n0 ≤ n → ServoMod.runTicks clk n m = .ok (x, ev) := by
  intro n hn
  induction n with
  | zero =>
    have : n0 = 0 := by omega
    subst this
    exact h0
  | succ k ih =>
    by_cases hk : n0 = k + 1
    · subst hk
      exact h0
    · have := runTicks_succ clk k m x x ev [] (ih (by omega)) (hfix _)
      simpa using this

theorem conv_step (m : ServoMod) (clk : Nat → Tick) (c a s : Int) (d n : Nat)
    (x : ServoMod)
    (hs : 1 ≤ s) (hsi : isInt s)
    (hst : m.state = State.Idle) (hnx : m.nextState = State.Idle) (hc : m.angle = c)
    (hsz : m.buffer.size = 1) (hr : inBounds m.buffer.readIndex = true)
    (htg : m.buffer.angles m.buffer.readIndex = ⟨a, s⟩)
    (hp : paced (1000 / s).toNat clk)
    (hd1 : c ≤ a → (d : Int) = a - c) (hd2 : a ≤ c → (d : Int) = c - a)
    (hx : ConvInv m clk c a s d n x) :
    ∃ y ev, x.loop (clk n) = .ok (y, ev) ∧ ConvInv m clk c a s d (n + 1) y := by
  obtain ⟨hup, hdown, hat, h0, h1, h2, hadj, hreq, hidle⟩ := hx
  have hsp : toUL (m.buffer.angles m.buffer.readIndex).speed ≠ 0 := by
    rw [htg]
    exact toUL_ne_zero s (by omega) hsi
  have hpsz : (popped m.buffer).size = 0 := by
    simp [popped, hsz]
  by_cases hn0 : n = 0
  · -- the first tick: `Idle` requests `Adjusting`
    subst hn0
    have hxm := h0 rfl
    subst hxm
    refine ⟨_, _, loop_idle_request x _ hst hnx (by rw [hsz]; decide), ?_⟩
    refine ⟨?_, ?_, ?_, ?_, ?_, ?_, ?_, ?_, ?_⟩
    · intro _ _
      simp [hc]
    · intro _ _
      simp [hc]
    · intro h
      have : d = 0 := by omega
      subst this
      simp only [hc]
      rcases le_total c a with h | h
      · have := hd1 h
        simp at this
        omega
      · have := hd2 h
        simp at this
        omega
    · intro h
      omega
    · intro _
      rfl
    · intro h
      omega
    · intro h
      omega
    · intro h
      omega
    · intro h
      omega
  by_cases hn1 : n = 1
  · -- the second tick: the target is popped and the first step taken
    subst hn1
    have hxm := h1 rfl
    subst hxm
    obtain ⟨ev, hloop⟩ := loop_enter_adjusting { m with nextState := State.Adjusting }
      (clk 1) hst rfl hsz hr hsp
    simp only [htg] at hloop
    rcases lt_trichotomy c a with hlt | heq | hgt
    · rw [adjustingStep_up _ _ (by simpa [hc] using hlt)] at hloop
      refine ⟨_, _, hloop, ?_⟩
      have hdd := hd1 hlt.le
      refine ⟨?_, ?_, ?_, ?_, ?_, ?_, ?_, ?_, ?_⟩
      · intro _ _
        simp [hc]
      · intro h _
        omega
      · intro h
        simp only [hc]
        omega
      · intro h
        omega
      · intro h
        omega
      · intro _
        exact ⟨rfl, rfl, rfl, rfl⟩
      · intro _ _
        exact ⟨rfl, rfl, rfl⟩
      · intro h
        omega
      · intro h
        omega
    · subst heq
      have hd0 : d = 0 := by
        have := hd1 le_rfl
        omega
      subst hd0
      rw [adjustingStep_at _ _ (by simp [hc]) rfl rfl] at hloop
      refine ⟨_, _, hloop, ?_⟩
      refine ⟨?_, ?_, ?_, ?_, ?_, ?_, ?_, ?_, ?_⟩
      · intro _ h
        omega
      · intro _ h
        omega
      · intro _
        exact hc
      · intro h
        omega
      · intro h
        omega
      · intro _
        exact ⟨rfl, rfl, rfl, rfl⟩
      · intro _ h
        omega
      · intro _
        exact ⟨rfl, rfl⟩
      · intro h
        omega
    · rw [adjustingStep_down _ _ (by simpa [hc] using hgt)] at hloop
      refine ⟨_, _, hloop, ?_⟩
      have hdd := hd2 hgt.le
      refine ⟨?_, ?_, ?_, ?_, ?_, ?_, ?_, ?_, ?_⟩
      · intro h _
        omega
      · intro _ _
        simp [hc]
      · intro h
        simp only [hc]
        omega
      · intro h
        omega
      · intro h
        omega
      · intro _
        exact ⟨rfl, rfl, rfl, rfl⟩
      · intro _ _
        exact ⟨rfl, rfl, rfl⟩
      · intro h
        omega
      · intro h
        omega
  by_cases hn2 : n ≤ d + 1
  · -- a paced tick in `Adjusting`
    have hge : 2 ≤ n := by omega
    obtain ⟨hbuf, htar, hfi, hiv⟩ := h2 hge
    obtain ⟨hxs, hxn, hlm⟩ := hadj hge hn2
    have hpk := hp (n - 1)
    have hnn : n - 1 + 1 = n := by omega
    rw [hnn] at hpk
    have hsub := subUL_millis (clk n).check (clk (n - 1)).stamp (by omega) hpk.2
    have hloop := loop_adjusting_step x (clk n) hxs hxn hfi (by
      rw [hlm, hsub, hiv, interval_pos s hs hsi]
      omega)
    rcases lt_trichotomy c a with hlt | heq | hgt
    · have hdd := hd1 hlt.le
      have hang := hup hlt.le hn2
      by_cases hlast : n = d + 1
      · rw [adjustingStep_at x _ (by rw [htar, hang]; simp only; omega) hxs hxn] at hloop
        refine ⟨_, _, hloop, ?_⟩
        refine ⟨?_, ?_, ?_, ?_, ?_, ?_, ?_, ?_, ?_⟩
        · intro _ h
          omega
        · intro _ h
          omega
        · intro _
          simp only [hang]
          omega
        · intro h
          omega
        · intro h
          omega
        · intro _
          exact ⟨hbuf, htar, hfi, hiv⟩
        · intro _ h
          omega
        · intro _
          exact ⟨hxs, rfl⟩
        · intro h
          omega
      · rw [adjustingStep_up x _ (by rw [htar, hang]; simp only; omega)] at hloop
        refine ⟨_, _, hloop, ?_⟩
        refine ⟨?_, ?_, ?_, ?_, ?_, ?_, ?_, ?_, ?_⟩
        · intro _ _
          simp only [hang]
          omega
        · intro h _
          omega
        · intro h
          simp only [hang]
          omega
        · intro h
          omega
        · intro h
          omega
        · intro _
          exact ⟨hbuf, htar, hfi, hiv⟩
        · intro _ _
          exact ⟨hxs, hxn, by simp⟩
        · intro h
          omega
        · intro h
          omega
    · subst heq
      have hd0 : d = 0 := by
        have := hd1 le_rfl
        omega
      omega
    · have hdd := hd2 hgt.le
      have hang := hdown hgt.le hn2
      by_cases hlast : n = d + 1
      · rw [adjustingStep_at x _ (by rw [htar, hang]; simp only; omega) hxs hxn] at hloop
        refine ⟨_, _, hloop, ?_⟩
        refine ⟨?_, ?_, ?_, ?_, ?_, ?_, ?_, ?_, ?_⟩
        · intro _ h
          omega
        · intro _ h
          omega
        · intro _
          simp only [hang]
          omega
        · intro h
          omega
        · intro h
          omega
        · intro _
          exact ⟨hbuf, htar, hfi, hiv⟩
        · intro _ h
          omega
        · intro _
          exact ⟨hxs, rfl⟩
        · intro h
          omega
      · rw [adjustingStep_down x _ (by rw [htar, hang]; simp only; omega)] at hloop
        refine ⟨_, _, hloop, ?_⟩
        refine ⟨?_, ?_, ?_, ?_, ?_, ?_, ?_, ?_, ?_⟩
        · intro h _
          omega
        · intro _ _
          simp only [hang]
          omega
        · intro h
          simp only [hang]
          omega
        · intro h
          omega
        · intro h
          omega
        · intro _
          exact ⟨hbuf, htar, hfi, hiv⟩
        · intro _ _
          exact ⟨hxs, hxn, by simp⟩
        · intro h
          omega
        · intro h
          omega
  by_cases hn3 : n = d + 2
  · -- the tick that leaves `Adjusting`
    have hge : 2 ≤ n := by omega
    obtain ⟨hbuf, htar, hfi, hiv⟩ := h2 hge
    obtain ⟨hxs, hxn⟩ := hreq hn3
    have hloop := loop_leave_adjusting x (clk n) hxs hxn (by rw [hbuf]; exact hpsz)
    refine ⟨_, _, hloop, ?_⟩
    refine ⟨?_, ?_, ?_, ?_, ?_, ?_, ?_, ?_, ?_⟩
    · intro _ h
      omega
    · intro _ h
      omega
    · intro _
      exact hat (by omega)
    · intro h
      omega
    · intro h
      omega
    · intro _
      exact ⟨hbuf, htar, hfi, hiv⟩
    · intro _ h
      omega
    · intro h
      omega
    · intro _
      exact ⟨rfl, hxn⟩
  · -- a tick in `Idle` with the queue empty
    have hge : 2 ≤ n := by omega
    obtain ⟨hbuf, htar, hfi, hiv⟩ := h2 hge
    obtain ⟨hxs, hxn⟩ := hidle (by omega)
    have hloop := loop_idle_rest x (clk n) hxs hxn (by rw [hbuf]; exact hpsz)
    refine ⟨_, _, hloop, ?_⟩
    refine ⟨?_, ?_, ?_, ?_, ?_, ?_, ?_, ?_, ?_⟩
    · intro _ h
      omega
    · intro _ h
      omega
    · intro _
      exact hat (by omega)
    · intro h
      omega
    · intro h
      omega
    · intro _
      exact ⟨hbuf, htar, hfi, hiv⟩
    · intro _ h
      omega
    · intro h
      omega
    · intro _
      exact ⟨hxs, hxn⟩

theorem conv_run (m : ServoMod) (clk : Nat → Tick) (c a s : Int) (d : Nat)
    (hs : 1 ≤ s) (hsi : isInt s)
    (hst : m.state = State.Idle) (hnx : m.nextState = State.Idle) (hc : m.angle = c)
    (hsz : m.buffer.size = 1) (hr : inBounds m.buffer.readIndex = true)
    (htg : m.buffer.angles m.buffer.readIndex = ⟨a, s⟩)
    (hp : paced (1000 / s).toNat clk)
    (hd1 : c ≤ a → (d : Int) = a - c) (hd2 : a ≤ c → (d : Int) = c - a) :
    ∀ n, ∃ x ev, ServoMod.runTicks clk n m = .ok (x, ev) ∧ ConvInv m clk c a s d n x := by
  intro n
  induction n with
  | zero =>
    refine ⟨m, [], rfl, ?_⟩
    refine ⟨?_, ?_, ?_, ?_, ?_, ?_, ?_, ?_, ?_⟩
    · intro _ _
      simp [hc]
    · intro _ _
      simp [hc]
    · intro h
      omega
    · intro _
      rfl
    · intro h
      omega
    · intro h
      omega
    · intro h
      omega
    · intro h
      omega
    · intro h
      omega
  | succ n ih =>
    obtain ⟨x, ev, hrun, hinv⟩ := ih
    obtain ⟨y, ev2, hloop, hinv2⟩ :=
      conv_step m clk c a s d n x hs hsi hst hnx hc hsz hr htg hp hd1 hd2 hinv
    exact ⟨y, ev ++ ev2, runTicks_succ clk n m x y ev ev2 hrun hloop, hinv2⟩

/-- C9 (convergence), with the gaps between ticks bounded by the range of the
clock.  A machine in `Idle` with nothing pending, at angle `c`, whose queue
holds exactly the target `{a, s}` with `s >= 1`, is ticked; between
consecutive ticks at least `1000 / s` ms and fewer than `2^32` ms pass.  Then
after `|a - c| + 3` ticks, and after any larger number of ticks, the machine is
one and the same: in `Idle` with nothing pending, at angle `a`, with an empty
queue.  From the second tick to tick `|a - c| + 2` the state is `Adjusting`.
After any number of ticks the angle lies between `c` and `a`, and along the run
it never moves away from `a`: it is non-decreasing when `c <= a` and
non-increasing when `a <= c`. -/
theorem C9_convergence (m : ServoMod) (clk : Nat → Tick) (c a s : Int)
    (hs : 1 ≤ s) (hsi : isInt s)
    (hst : m.state = State.Idle) (hnx : m.nextState = State.Idle) (hc : m.angle = c)
    (hsz : m.buffer.size = 1) (hr : inBounds m.buffer.readIndex = true)
    (htg : m.buffer.angles m.buffer.readIndex = ⟨a, s⟩)
    (hp : paced (1000 / s).toNat clk) :
    (∃ x ev, x.state = State.Idle ∧ x.nextState = State.Idle ∧ x.angle = a ∧
      x.buffer.isEmpty = true ∧
      ∀ n, (a - c).natAbs + 3 ≤ n → ServoMod.runTicks clk n m = .ok (x, ev)) ∧
    (∀ n, 2 ≤ n → n ≤ (a - c).natAbs + 2 →
      ∃ x ev, ServoMod.runTicks clk n m = .ok (x, ev) ∧ x.state = State.Adjusting) ∧
    (∀ n, ∃ x ev, ServoMod.runTicks clk n m = .ok (x, ev) ∧
      (c ≤ a → c ≤ x.angle ∧ x.angle ≤ a) ∧ (a ≤ c → a ≤ x.angle ∧ x.angle ≤ c)) ∧
    (∀ (i j : Nat) (x y : ServoMod) (evx evy : List Event), i ≤ j →
      ServoMod.runTicks clk i m = .ok (x, evx) →
      ServoMod.runTicks clk j m = .ok (y, evy) →
      (c ≤ a → x.angle ≤ y.angle) ∧ (a ≤ c → y.angle ≤ x.angle)) := by
  have hd1 : c ≤ a → (((a - c).natAbs : Nat) : Int) = a - c := by
    intro h
    omega
  have hd2 : a ≤ c → (((a - c).natAbs : Nat) : Int) = c - a := by
    intro h
    omega
  have hrun := conv_run m clk c a s (a - c).natAbs hs hsi hst hnx hc hsz hr htg hp hd1 hd2
  have hpsz : (popped m.buffer).size = 0 := by
    simp [popped, hsz]
  refine ⟨?_, ?_, ?_, ?_⟩
  · obtain ⟨x, ev, hx, hup, hdown, hat, h0, h1, h2, hadj, hreq, hidle⟩ :=
      hrun ((a - c).natAbs + 3)
    obtain ⟨hxs, hxn⟩ := hidle le_rfl
    obtain ⟨hbuf, -⟩ := h2 (by omega)
    have hsz0 : x.buffer.size = 0 := by
      rw [hbuf]
      exact hpsz
    refine ⟨x, ev, hxs, hxn, hat (by omega), by simp [SpeedServoBuffer.isEmpty, hsz0], ?_⟩
    exact runTicks_stable clk m x ev _ hx (fun t => loop_idle_rest x t hxs hxn hsz0)
  · intro n h2n hn
    obtain ⟨x, ev, hx, hup, hdown, hat, h0, h1, h2, hadj, hreq, hidle⟩ := hrun n
    refine ⟨x, ev, hx, ?_⟩
    by_cases hlast : n = (a - c).natAbs + 2
    · exact (hreq hlast).1
    · exact (hadj h2n (by omega)).1
  · intro n
    obtain ⟨x, ev, hx, hup, hdown, hat, -⟩ := hrun n
    refine ⟨x, ev, hx, ?_, ?_⟩
    · intro h
      have hdd := hd1 h
      by_cases hn : n ≤ (a - c).natAbs + 1
      · have := hup h hn
        omega
      · have := hat (by omega)
        omega
    · intro h
      have hdd := hd2 h
      by_cases hn : n ≤ (a - c).natAbs + 1
      · have := hdown h hn
        omega
      · have := hat (by omega)
        omega
  · intro i j x y evx evy hij hi hj
    obtain ⟨x2, ev2, hx2, hup, hdown, hat, -⟩ := hrun i
    obtain ⟨y2, ev3, hy2, hup2, hdown2, hat2, -⟩ := hrun j
    rw [hi] at hx2
    rw [hj] at hy2
    cases hx2
    cases hy2
    constructor
    · intro h
      have hdd := hd1 h
      by_cases hn : j ≤ (a - c).natAbs + 1
      · have h3 := hup h (by omega)
        have h4 := hup2 h hn
        omega
      · have h4 := hat2 (by omega)
        by_cases hn2 : i ≤ (a - c).natAbs + 1
        · have h3 := hup h hn2
          omega
        · have h3 := hat (by omega)
          omega
    · intro h
      have hdd := hd2 h
      by_cases hn : j ≤ (a - c).natAbs + 1
      · have h3 := hdown h (by omega)
        have h4 := hdown2 h hn
        omega
      · have h4 := hat2 (by omega)
        by_cases hn2 : i ≤ (a - c).natAbs + 1
        · have h3 := hdown h hn2
          omega
        · have h3 := hat (by omega)
          omega

theorem paced_unitClock : paced (1000 / (1000 : Int)).toNat unitClock := by
  intro k
  have h : (1000 / (1000 : Int)).toNat = 1 := by decide
  rw [h]
  simp [unitClock, ULONG_MOD]

/-- C9 at a concrete input: from angle 0 to the target `{10, 1000}`, one tick
per millisecond. -/
theorem C9_convergence_witness :
    ∃ x ev, x.state = State.Idle ∧ x.nextState = State.Idle ∧ x.angle = 10 ∧
      x.buffer.isEmpty = true ∧
      ∀ n, ((10 : Int) - 0).natAbs + 3 ≤ n →
        ServoMod.runTicks unitClock n (idleWith 0 ⟨10, 1000⟩) = .ok (x, ev) :=
  (C9_convergence (idleWith 0 ⟨10, 1000⟩) unitClock 0 10 1000 (by decide) (by decide)
    rfl rfl rfl rfl rfl rfl paced_unitClock).1

/-- C9 as stated fails when a gap between ticks is a multiple of the range of
the clock: `wrapMachine` is in `Idle` at angle 0 with the one target
`{2, 1000}` (interval 1 ms) and is ticked every `2^32` ms; the first step is
taken, and from then on the clock reads the value of the last step at every
tick, so the machine stays in `Adjusting` at angle 1, also after
`|2 - 0| + 3 = 5` ticks. -/
theorem C9_counterexample_clock_wrap :
    spaced (1000 / (1000 : Int)).toNat wrapClock ∧
      wrapMachine.state = State.Idle ∧ wrapMachine.nextState = State.Idle ∧
      wrapMachine.angle = 0 ∧ wrapMachine.buffer.size = 1 ∧
      wrapMachine.buffer.angles wrapMachine.buffer.readIndex = ⟨2, 1000⟩ ∧
      (∃ x ev, ServoMod.runTicks wrapClock (((2 : Int) - 0).natAbs + 3) wrapMachine
          = .ok (x, ev) ∧ x.state = State.Adjusting ∧ x.angle = 1) ∧
      (∀ n, 2 ≤ n → ∃ x ev, ServoMod.runTicks wrapClock n wrapMachine = .ok (x, ev) ∧
          x.state = State.Adjusting ∧ x.angle = 1) := by
  have hall : ∀ n, 2 ≤ n → ∃ x ev, ServoMod.runTicks wrapClock n wrapMachine = .ok (x, ev) ∧
      x.state = State.Adjusting ∧ x.nextState = State.Adjusting ∧ x.angle = 1 ∧
      x.adjustingState = ⟨⟨2, 1000⟩, 0, false, 1⟩ := by
    intro n hn
    induction n with
    | zero => omega
    | succ k ih =>
      by_cases hk : k = 1
      · subst hk
        exact ⟨_, _, rfl, rfl, rfl, rfl, rfl⟩
      · obtain ⟨x, ev, hx, hxs, hxn, hxa, hadj⟩ := ih (by omega)
        have hloop := loop_adjusting_wait x (wrapClock k) hxs hxn (by rw [hadj]) (by
          rw [hadj]
          simp [wrapClock, millis, subUL, ULONG_MOD])
        exact ⟨x, ev ++ [], runTicks_succ wrapClock k wrapMachine x x ev [] hx hloop,
          hxs, hxn, hxa, hadj⟩
  refine ⟨?_, rfl, rfl, rfl, rfl, rfl, ?_, ?_⟩
  · intro k
    have h : (1000 / (1000 : Int)).toNat = 1 := by decide
    rw [h]
    simp only [wrapClock]
    omega
  · obtain ⟨x, ev, hx, hxs, -, hxa, -⟩ := hall 5 (by decide)
    exact ⟨x, ev, hx, hxs, hxa⟩
  · intro n hn
    obtain ⟨x, ev, hx, hxs, -, hxa, -⟩ := hall n hn
    exact ⟨x, ev, hx, hxs, hxa⟩

/-- C10 (no-op target), with the return to `Idle` requested at the second tick
and made at the third.  A machine in `Idle` with nothing pending whose queue
holds one target, of the machine's current angle and of non-zero speed, is
ticked at any times.  After one tick it is in `Idle` with `Adjusting` pending;
after two ticks it is in `Adjusting` with `Idle` pending; after three ticks,
and after any larger number, it is in `Idle` with nothing pending and an empty
queue.  After any number of ticks the calls made on the servo, the angle and
the time stamp of the last step are what they were at the start, whatever the
clock reads: no write and no update of the time stamp takes place. -/
theorem C10_noop_target (m : ServoMod) (clk : Nat → Tick) (t : SpeedServoTarget)
    (hst : m.state = State.Idle) (hnx : m.nextState = State.Idle)
    (hsz : m.buffer.size = 1) (hr : inBounds m.buffer.readIndex = true)
    (htg : m.buffer.angles m.buffer.readIndex = t)
    (hang : t.angle = m.angle) (hsp : t.speed ≠ 0) (hsi : isInt t.speed) :
    (∃ x ev, ServoMod.runTicks clk 1 m = .ok (x, ev) ∧
      x.state = State.Idle ∧ x.nextState = State.Adjusting) ∧
    (∃ x ev, ServoMod.runTicks clk 2 m = .ok (x, ev) ∧
      x.state = State.Adjusting ∧ x.nextState = State.Idle) ∧
    (∀ n, 3 ≤ n → ∃ x ev, ServoMod.runTicks clk n m = .ok (x, ev) ∧
      x.state = State.Idle ∧ x.nextState = State.Idle ∧ x.buffer.isEmpty = true) ∧
    (∀ n, ∃ x ev, ServoMod.runTicks clk n m = .ok (x, ev) ∧
      x.servo = m.servo ∧ x.angle = m.angle ∧
      x.adjustingState.lastMillis = m.adjustingState.lastMillis) := by
  have h1 := loop_idle_request m (clk 0) hst hnx (by rw [hsz]; decide)
  have hr1 := runTicks_succ clk 0 m m _ [] _ rfl h1
  obtain ⟨ev2, h2⟩ := loop_enter_adjusting { m with nextState := State.Adjusting } (clk 1)
    hst rfl hsz hr (by rw [htg]; exact toUL_ne_zero _ hsp hsi)
  rw [adjustingStep_at _ _ (by simp only [htg]; exact hang) rfl rfl] at h2
  have hr2 := runTicks_succ clk 1 m _ _ _ _ hr1 h2
  have hpsz : (popped m.buffer).size = 0 := by
    simp [popped, hsz]
  have h3 := loop_leave_adjusting _ (clk 2) rfl rfl hpsz
    |> runTicks_succ clk 2 m _ _ _ _ hr2
  have hstay := runTicks_stable clk m _ _ 3 h3
    (fun t => loop_idle_rest _ t rfl rfl hpsz)
  refine ⟨⟨_, _, hr1, hst, rfl⟩, ⟨_, _, hr2, rfl, rfl⟩, ?_, ?_⟩
  · intro n hn
    exact ⟨_, _, hstay n hn, rfl, rfl, by simp [SpeedServoBuffer.isEmpty, hpsz]⟩
  · intro n
    by_cases hn3 : 3 ≤ n
    · exact ⟨_, _, hstay n hn3, rfl, rfl, rfl⟩
    · have hcases : n = 0 ∨ n = 1 ∨ n = 2 := by omega
      rcases hcases with h | h | h
      · subst h
        exact ⟨m, [], rfl, rfl, rfl, rfl⟩
      · subst h
        exact ⟨_, _, hr1, rfl, rfl, rfl⟩
      · subst h
        exact ⟨_, _, hr2, rfl, rfl, rfl⟩

/-- C10 at a concrete input: at angle 4 with the one target `{4, 50}`. -/
theorem C10_noop_target_witness :
    ∃ x ev, ServoMod.runTicks unitClock 2 (idleWith 4 ⟨4, 50⟩) = .ok (x, ev) ∧
      x.state = State.Adjusting ∧ x.nextState = State.Idle :=
  (C10_noop_target (idleWith 4 ⟨4, 50⟩) unitClock ⟨4, 50⟩ rfl rfl rfl rfl rfl rfl
    (by decide) (by decide)).2.1

/-- C10 as stated fails: at angle 4 with the one target `{4, 50}` (speed
non-zero), after two calls of `loop()` the state is `Adjusting`, not `Idle`;
`Idle` is only pending. -/
theorem C10_counterexample_two_ticks :
    (idleWith 4 ⟨4, 50⟩).state = State.Idle ∧
      (idleWith 4 ⟨4, 50⟩).nextState = State.Idle ∧
      (idleWith 4 ⟨4, 50⟩).buffer.size = 1 ∧
      ((idleWith 4 ⟨4, 50⟩).buffer.angles (idleWith 4 ⟨4, 50⟩).buffer.readIndex).angle
        = (idleWith 4 ⟨4, 50⟩).angle ∧
      ∃ x ev, ServoMod.runTicks unitClock 2 (idleWith 4 ⟨4, 50⟩) = .ok (x, ev) ∧
        x.state = State.Adjusting ∧ x.nextState = State.Idle ∧ x.state ≠ State.Idle :=
  ⟨rfl, rfl, rfl, rfl, _, _, rfl, rfl, rfl, by decide⟩

/-! ## The queue: well-formedness and contents -/

theorem wellFormed_new (mem : Int → SpeedServoTarget) :
    (SpeedServoBuffer.new mem).wellFormed := by
  simp [SpeedServoBuffer.wellFormed, SpeedServoBuffer.new]

theorem wellFormed_inBounds_read (b : SpeedServoBuffer) (h : b.wellFormed) :
    inBounds b.readIndex = true := by
  rw [inBounds_iff]
  exact ⟨h.1, h.2.1⟩

theorem wellFormed_inBounds_write (b : SpeedServoBuffer) (h : b.wellFormed) :
    inBounds b.writeIndex = true := by
  rw [inBounds_iff]
  exact ⟨h.2.2.1, h.2.2.2.1⟩

theorem contents_length (b : SpeedServoBuffer) : b.contents.length = b.size.toNat := by
  simp [SpeedServoBuffer.contents]

/-- A push into a well-formed queue with room returns true, calls no callback,
keeps the queue well formed and appends the target to its contents. -/
theorem push_wellFormed (b : SpeedServoBuffer) (t : SpeedServoTarget)
    (h : b.wellFormed) (hs : b.size ≠ 20) :
    ∃ r, b.push t = .ok r ∧ r.ret = true ∧ r.events = [] ∧ r.buffer.wellFormed ∧
      r.buffer.contents = b.contents ++ [t] ∧ r.buffer.size = b.size + 1 ∧
      r.buffer.readIndex = b.readIndex ∧
      r.buffer.drainCallback = b.drainCallback ∧
      r.buffer.emptyCallback = b.emptyCallback := by
  obtain ⟨h1, h2, h3, h4, h5, h6, h7⟩ := h
  have hp := push_room b t (by simpa [SPEED_SERVO_BUFFER_SIZE] using hs)
    (by rw [inBounds_iff]; exact ⟨h3, h4⟩)
  refine ⟨_, hp, rfl, rfl, ?_, ?_, rfl, rfl, rfl, rfl⟩
  · simp only [SpeedServoBuffer.wellFormed, SPEED_SERVO_BUFFER_SIZE]
    omega
  · obtain ⟨n, hn⟩ := Int.eq_ofNat_of_zero_le h5
    simp only [SpeedServoBuffer.contents, hn]
    have hn1 : ((n : Int) + 1).toNat = n + 1 := by omega
    rw [hn1, Int.toNat_ofNat, List.range_succ, List.map_append]
    congr 1
    · apply List.map_congr_left
      intro i hi
      have hi2 : i < n := List.mem_range.1 hi
      rw [Function.update_noteq]
      omega
    · simp only [List.map_cons, List.map_nil]
      have : (b.readIndex + (n : Int)) % 20 = b.writeIndex := by omega
      rw [this, Function.update_same]

/-- The queue a pop leaves behind a well-formed non-empty queue is well formed,
and its contents are the former contents without the first, which is the target
at the read cursor. -/
theorem popped_wellFormed (b : SpeedServoBuffer) (h : b.wellFormed) (hs : b.size ≠ 0) :
    (popped b).wellFormed ∧ b.contents = b.angles b.readIndex :: (popped b).contents := by
  obtain ⟨h1, h2, h3, h4, h5, h6, h7⟩ := h
  constructor
  · simp only [SpeedServoBuffer.wellFormed, popped, SPEED_SERVO_BUFFER_SIZE]
    omega
  · obtain ⟨n, hn⟩ : ∃ n : Nat, b.size = (n : Int) + 1 := ⟨(b.size - 1).toNat, by omega⟩
    simp only [SpeedServoBuffer.contents, popped, hn, SPEED_SERVO_BUFFER_SIZE]
    have hn1 : ((n : Int) + 1).toNat = n + 1 := by omega
    have hn2 : ((n : Int) + 1 - 1).toNat = n := by omega
    rw [hn1, hn2, List.range_succ_eq_map, List.map_cons, List.map_map]
    congr 1
    · simp only [Nat.cast_zero, add_zero]
      have : b.readIndex % 20 = b.readIndex := by omega
      rw [this]
    · apply List.map_congr_left
      intro i _
      simp only [Function.comp]
      congr 1
      push_cast
      omega

theorem popEvents_cases (b : SpeedServoBuffer) :
    (∃ ev, popEvents b = .ok ev) ∨ popEvents b = .error Fault.nullCall := by
  unfold popEvents notify
  split
  · exact Or.inl ⟨_, rfl⟩
  · split
    · split
      · exact Or.inl ⟨_, rfl⟩
      · exact Or.inr rfl
    · exact Or.inl ⟨_, rfl⟩

theorem popEvents_ok_of_drain (b : SpeedServoBuffer) (hd : b.drainCallback ≠ none) :
    ∃ ev, popEvents b = .ok ev := by
  unfold popEvents notify
  split
  · exact ⟨_, rfl⟩
  · split
    · cases hdc : b.drainCallback with
      | none => exact absurd hdc hd
      | some cb => exact ⟨_, rfl⟩
    · exact ⟨_, rfl⟩

/-- A pop of a well-formed non-empty queue with a drain callback returns true
with the oldest target. -/
theorem pop_wellFormed (b : SpeedServoBuffer) (out : SpeedServoTarget)
    (h : b.wellFormed) (hs : b.size ≠ 0) (hd : b.drainCallback ≠ none) :
    ∃ r, b.pop out = .ok r ∧ r.ret = true ∧ r.buffer = popped b ∧
      r.angle = b.angles b.readIndex ∧ r.buffer.wellFormed ∧
      b.contents = r.angle :: r.buffer.contents := by
  obtain ⟨ev, hev⟩ := popEvents_ok_of_drain (popped b) (by simpa [popped] using hd)
  have hp := pop_some b out hs (wellFormed_inBounds_read b h)
  rw [hev] at hp
  simp only at hp
  have hw := popped_wellFormed b h hs
  exact ⟨_, hp, rfl, rfl, rfl, hw.1, hw.2⟩

theorem call_wellFormed (b b2 : SpeedServoBuffer) (c : BufferCall)
    (h : b.wellFormed) (hc : b.call c = .ok b2) : b2.wellFormed := by
  cases c with
  | push t =>
    simp only [SpeedServoBuffer.call] at hc
    cases hp : b.push t with
    | error f => rw [hp] at hc; cases hc
    | ok r =>
      rw [hp] at hc
      cases hc
      rcases (push_ok_cases b t r hp).2 with h1 | h1
      · rw [h1.2.2]
        exact h
      · have hne : b.size ≠ 20 := by simpa [SPEED_SERVO_BUFFER_SIZE] using h1.2.1
        obtain ⟨r2, hr2, -, -, hwf, -⟩ := push_wellFormed b t h hne
        rw [hp] at hr2
        cases hr2
        exact hwf
  | pop out =>
    simp only [SpeedServoBuffer.call] at hc
    cases hp : b.pop out with
    | error f => rw [hp] at hc; cases hc
    | ok r =>
      rw [hp] at hc
      cases hc
      rcases pop_ok_cases b out r hp with h1 | h1
      · rw [h1.2.2.1]
        exact h
      · rw [h1.2.2.2.1]
        exact (popped_wellFormed b h h1.2.1).1
  | onDrain cb =>
    simp only [SpeedServoBuffer.call] at hc
    cases hc
    exact h
  | onEmpty cb =>
    simp only [SpeedServoBuffer.call] at hc
    cases hc
    exact h

theorem runCalls_wellFormed (cs : List BufferCall) :
    ∀ b b2 : SpeedServoBuffer, b.wellFormed → b.runCalls cs = .ok b2 → b2.wellFormed := by
  induction cs with
  | nil =>
    intro b b2 h hr
    simp only [SpeedServoBuffer.runCalls] at hr
    cases hr
    exact h
  | cons c cs ih =>
    intro b b2 h hr
    simp only [SpeedServoBuffer.runCalls] at hr
    cases hc : b.call c with
    | error f => rw [hc] at hr; cases hr
    | ok b1 =>
      rw [hc] at hr
      exact ih b1 b2 (call_wellFormed b b1 c h hc) hr

theorem call_not_outOfBounds (b : SpeedServoBuffer) (c : BufferCall) (h : b.wellFormed) :
    b.call c ≠ .error Fault.outOfBounds := by
  cases c with
  | push t =>
    simp only [SpeedServoBuffer.call]
    by_cases hs : b.size = SPEED_SERVO_BUFFER_SIZE
    · rw [push_full b t hs]
      simp
    · rw [push_room b t hs (wellFormed_inBounds_write b h)]
      simp
  | pop out =>
    simp only [SpeedServoBuffer.call]
    by_cases hs : b.size = 0
    · rw [pop_empty b out hs]
      simp
    · rw [pop_some b out hs (wellFormed_inBounds_read b h)]
      rcases popEvents_cases (popped b) with ⟨ev, hev⟩ | hev
      · rw [hev]
        simp
      · rw [hev]
        simp
  | onDrain cb => simp [SpeedServoBuffer.call]
  | onEmpty cb => simp [SpeedServoBuffer.call]

theorem runCalls_not_outOfBounds (cs : List BufferCall) :
    ∀ b : SpeedServoBuffer, b.wellFormed → b.runCalls cs ≠ .error Fault.outOfBounds := by
  induction cs with
  | nil =>
    intro b _
    simp [SpeedServoBuffer.runCalls]
  | cons c cs ih =>
    intro b h
    simp only [SpeedServoBuffer.runCalls]
    cases hc : b.call c with
    | error f =>
      intro hf
      simp only [Except.error.injEq] at hf
      subst hf
      exact call_not_outOfBounds b c h hc
    | ok b1 =>
      exact ih b1 (call_wellFormed b b1 c h hc)

/-! ## Claims C11, C18 and C20 -/

/-- C11 (null-callback tolerance of `pop`).  In every queue state and under
every registration of callbacks, `pop` calls a null pointer exactly when it
takes a target (the count is not 0 and the read cursor is inside the array),
the count it leaves is 10 and no drain callback is registered; in every other
case a pop that takes a target returns true.  A pop that empties the queue
while no empty callback is registered returns true and calls nothing; a pop
that leaves 10 targets while no drain callback is registered calls the null
pointer. -/
theorem C11_null_callback_tolerance :
    (∀ (b : SpeedServoBuffer) (out : SpeedServoTarget),
      b.pop out = .error Fault.nullCall ↔
        (b.size ≠ 0 ∧ inBounds b.readIndex = true ∧
          b.size - 1 = SPEED_SERVO_BUFFER_HALF_SIZE ∧ b.drainCallback = none)) ∧
    (∀ (b : SpeedServoBuffer) (out : SpeedServoTarget),
      b.size ≠ 0 → inBounds b.readIndex = true →
      ¬ (b.size - 1 = SPEED_SERVO_BUFFER_HALF_SIZE ∧ b.drainCallback = none) →
      ∃ r, b.pop out = .ok r ∧ r.ret = true) ∧
    (∀ (b : SpeedServoBuffer) (out : SpeedServoTarget),
      b.size = 1 → inBounds b.readIndex = true → b.emptyCallback = none →
      ∃ r, b.pop out = .ok r ∧ r.ret = true ∧ r.events = [] ∧ r.buffer.size = 0) ∧
    (∀ (b : SpeedServoBuffer) (out : SpeedServoTarget),
      b.size = 11 → inBounds b.readIndex = true → b.drainCallback = none →
      b.pop out = .error Fault.nullCall) := by
  have key : ∀ (b : SpeedServoBuffer), popEvents (popped b) = .error Fault.nullCall ↔
      (b.size - 1 = SPEED_SERVO_BUFFER_HALF_SIZE ∧ b.drainCallback = none) := by
    intro b
    simp only [popEvents, notify, popped, SPEED_SERVO_BUFFER_HALF_SIZE]
    by_cases h10 : b.size - 1 = 10
    · have h0 : decide (b.size - 1 = 0) = false := by
        rw [h10]
        decide
      cases hd : b.drainCallback <;> simp [h0, h10]
    · cases hd : b.drainCallback <;> cases he : b.emptyCallback <;>
        by_cases h0 : b.size - 1 = 0 <;> simp [h0, h10]
  have hfirst : ∀ (b : SpeedServoBuffer) (out : SpeedServoTarget),
      b.pop out = .error Fault.nullCall ↔
        (b.size ≠ 0 ∧ inBounds b.readIndex = true ∧
          b.size - 1 = SPEED_SERVO_BUFFER_HALF_SIZE ∧ b.drainCallback = none) := by
    intro b out
    by_cases hs : b.size = 0
    · rw [pop_empty b out hs]
      simp [hs]
    · cases hr : inBounds b.readIndex
      · rw [pop_fault b out hs hr]
        simp
      · rw [pop_some b out hs hr, ← key b]
        rcases popEvents_cases (popped b) with ⟨ev, hev⟩ | hev
        · rw [hev]
          simp [hs]
        · rw [hev]
          simp [hs]
  refine ⟨hfirst, ?_, ?_, ?_⟩
  · intro b out hs hr hno
    rw [← key b] at hno
    rcases popEvents_cases (popped b) with ⟨ev, hev⟩ | hev
    · have hp := pop_some b out hs hr
      rw [hev] at hp
      exact ⟨_, hp, rfl⟩
    · exact absurd hev hno
  · intro b out hs hr he
    have hp := pop_some b out (by rw [hs]; decide) hr
    have hev : popEvents (popped b) = .ok [] := by
      simp [popEvents, notify, popped, hs, he, SPEED_SERVO_BUFFER_HALF_SIZE]
    rw [hev] at hp
    exact ⟨_, hp, rfl, rfl, by simp [popped, hs]⟩
  · intro b out hs hr hd
    rw [hfirst]
    refine ⟨by rw [hs]; decide, hr, ?_, hd⟩
    rw [hs]
    rfl

/-- C11 at a concrete input: a queue of 11 targets with an empty callback and
no drain callback, and a queue of one target with no callback at all. -/
theorem C11_null_callback_tolerance_witness :
    (SpeedServoBuffer.pop
        { angles := fun _ => ⟨1, 2⟩, size := 11, readIndex := 4, writeIndex := 15,
          drainCallback := none, emptyCallback := some 3 } ⟨0, 0⟩
        = .error Fault.nullCall) ∧
      (∃ r, SpeedServoBuffer.pop
          { angles := fun _ => ⟨1, 2⟩, size := 1, readIndex := 4, writeIndex := 5,
            drainCallback := none, emptyCallback := none } ⟨0, 0⟩ = .ok r ∧
        r.ret = true ∧ r.events = [] ∧ r.buffer.size = 0) :=
  ⟨C11_null_callback_tolerance.2.2.2 _ ⟨0, 0⟩ rfl rfl rfl,
    C11_null_callback_tolerance.2.2.1 _ ⟨0, 0⟩ rfl rfl rfl⟩

/-- From any well-formed queue with a drain callback, a sequence of pushes and
pops hands back what the abstract bounded list hands back from the contents of
the queue, and leaves a queue whose contents are the abstract list. -/
theorem runOps_refines (dflt : SpeedServoTarget) (ops : List QueueOp) :
    ∀ b : SpeedServoBuffer, b.wellFormed → b.drainCallback ≠ none →
      ∃ b2, b.runOps dflt ops = .ok ((absRun b.contents ops).1, b2) ∧
        b2.contents = (absRun b.contents ops).2 ∧ b2.wellFormed := by
  induction ops with
  | nil =>
    intro b h _
    exact ⟨b, rfl, rfl, h⟩
  | cons op ops ih =>
    intro b h hd
    cases op with
    | push t =>
      by_cases hs : b.size = 20
      · have hp := push_full b t (by simpa [SPEED_SERVO_BUFFER_SIZE] using hs)
        have habs : absPush b.contents t = (false, b.contents) := by
          simp [absPush, contents_length, hs]
        obtain ⟨b2, hrun, hcont, hwf⟩ := ih b h hd
        refine ⟨b2, ?_, ?_, hwf⟩
        · simp only [SpeedServoBuffer.runOps, hp, hrun, absRun, habs]
        · simp only [absRun, habs, hcont]
      · obtain ⟨r, hp, hret, -, hwf1, hcont1, -, -, hdc, -⟩ := push_wellFormed b t h hs
        have hlen : b.contents.length < 20 := by
          rw [contents_length]
          have := h.2.2.2.2.1
          have := h.2.2.2.2.2.1
          omega
        have habs : absPush b.contents t = (true, b.contents ++ [t]) := by
          simp [absPush, hlen]
        obtain ⟨b2, hrun, hcont, hwf⟩ := ih r.buffer hwf1 (by rw [hdc]; exact hd)
        rw [hcont1] at hrun hcont
        refine ⟨b2, ?_, ?_, hwf⟩
        · simp only [SpeedServoBuffer.runOps, hp, hrun, absRun, habs, hret]
        · simp only [absRun, habs, hcont]
    | pop =>
      by_cases hs : b.size = 0
      · have hp := pop_empty b dflt hs
        have hnil : b.contents = [] := by
          simp [SpeedServoBuffer.contents, hs]
        obtain ⟨b2, hrun, hcont, hwf⟩ := ih b h hd
        rw [hnil] at hrun hcont
        refine ⟨b2, ?_, ?_, hwf⟩
        · simp [SpeedServoBuffer.runOps, hp, hrun, absRun, hnil, absPop]
        · simp only [absRun, hnil, absPop, hcont]
      · obtain ⟨r, hp, hret, hbuf, -, hwf1, hcont1⟩ := pop_wellFormed b dflt h hs hd
        obtain ⟨b2, hrun, hcont, hwf⟩ := ih r.buffer hwf1 (by
          rw [hbuf]
          simpa [popped] using hd)
        refine ⟨b2, ?_, ?_, hwf⟩
        · simp [SpeedServoBuffer.runOps, hp, hrun, absRun, hcont1, absPop, hret]
        · simp only [absRun, hcont1, absPop, hcont]

/-- C18 (queue refinement).  On a newly constructed queue with a drain callback
registered, any finite sequence of `push` and `pop` calls, however long,
returns: every push hands back the flag, and every pop the flag and the target,
that the abstract list bounded at 20 hands back (push appends at the back iff
the length is below 20, pop removes the front iff the list is non-empty); the
queue left holds the abstract list, oldest first, and its count is the length
of the abstract list.  As this holds of every sequence, it holds after every
call of a sequence. -/
theorem C18_queue_refinement (mem : Int → SpeedServoTarget) (cb : Nat) (e : Option Nat)
    (dflt : SpeedServoTarget) (ops : List QueueOp) :
    ∃ b, (((SpeedServoBuffer.new mem).onDrain (some cb)).onEmpty e).runOps dflt ops
        = .ok ((absRun [] ops).1, b) ∧
      b.contents = (absRun [] ops).2 ∧
      b.size = (((absRun [] ops).2.length : Nat) : Int) := by
  obtain ⟨b, hrun, hcont, hwf⟩ :=
    runOps_refines dflt ops (((SpeedServoBuffer.new mem).onDrain (some cb)).onEmpty e)
      (by simp [SpeedServoBuffer.wellFormed, SpeedServoBuffer.new, SpeedServoBuffer.onDrain,
        SpeedServoBuffer.onEmpty])
      (by simp [SpeedServoBuffer.new, SpeedServoBuffer.onDrain, SpeedServoBuffer.onEmpty])
  have hnil : (((SpeedServoBuffer.new mem).onDrain (some cb)).onEmpty e).contents = [] := by
    simp [SpeedServoBuffer.contents, SpeedServoBuffer.new, SpeedServoBuffer.onDrain,
      SpeedServoBuffer.onEmpty]
  rw [hnil] at hrun hcont
  refine ⟨b, hrun, hcont, ?_⟩
  rw [← hcont, contents_length]
  have := hwf.2.2.2.2.1
  omega

/-- C20 (cursor invariant).  Every queue reached from a newly constructed one
by calls of `push`, `pop` and the setters has both cursors in `0..19`, the
count in `0..20` and `writeIndex == (readIndex + size) mod 20`, and no such
sequence of calls reads or writes outside the array.  On a queue with these
properties a push that returns true leaves `readIndex` and every target already
held where they are and adds its target after them; a pop that returns true
leaves `writeIndex` as it is. -/
theorem C20_cursor_invariant :
    (∀ (mem : Int → SpeedServoTarget) (cs : List BufferCall) (b : SpeedServoBuffer),
      (SpeedServoBuffer.new mem).runCalls cs = .ok b →
        0 ≤ b.readIndex ∧ b.readIndex < 20 ∧ 0 ≤ b.writeIndex ∧ b.writeIndex < 20 ∧
        0 ≤ b.size ∧ b.size ≤ 20 ∧ b.writeIndex = (b.readIndex + b.size) % 20) ∧
    (∀ (mem : Int → SpeedServoTarget) (cs : List BufferCall),
      (SpeedServoBuffer.new mem).runCalls cs ≠ .error Fault.outOfBounds) ∧
    (∀ (b : SpeedServoBuffer) (t : SpeedServoTarget) (r : PushResult),
      b.wellFormed → b.push t = .ok r → r.ret = true →
        r.buffer.readIndex = b.readIndex ∧
        (∀ i : Nat, (i : Int) < b.size →
          r.buffer.angles ((b.readIndex + (i : Int)) % 20)
            = b.angles ((b.readIndex + (i : Int)) % 20)) ∧
        r.buffer.contents = b.contents ++ [t]) ∧
    (∀ (b : SpeedServoBuffer) (out : SpeedServoTarget) (r : PopResult),
      b.pop out = .ok r → r.ret = true → r.buffer.writeIndex = b.writeIndex) := by
  refine ⟨?_, ?_, ?_, ?_⟩
  · intro mem cs b h
    exact runCalls_wellFormed cs _ b (wellFormed_new mem) h
  · intro mem cs
    exact runCalls_not_outOfBounds cs _ (wellFormed_new mem)
  · intro b t r hwf hp hret
    rcases (push_ok_cases b t r hp).2 with h1 | h1
    · rw [h1.1] at hret
      cases hret
    · obtain ⟨-, hne, -, -, hrd, -, hang, -, -⟩ := h1
      have hne2 : b.size ≠ 20 := by simpa [SPEED_SERVO_BUFFER_SIZE] using hne
      obtain ⟨r2, hr2, -, -, -, hcont, -⟩ := push_wellFormed b t hwf hne2
      rw [hp] at hr2
      cases hr2
      refine ⟨hrd, ?_, hcont⟩
      intro i hi
      obtain ⟨h1, h2, h3, h4, h5, h6, h7⟩ := hwf
      rw [hang, Function.update_noteq]
      omega
  · intro b out r hp hret
    rcases pop_ok_cases b out r hp with h1 | h1
    · rw [h1.1] at hret
      cases hret
    · rw [h1.2.2.2.1]
      rfl

/-- C20 at a concrete input: two pushes and a pop on a new queue. -/
theorem C20_cursor_invariant_witness :
    0 ≤ (1 : Int) ∧ (1 : Int) < 20 ∧ 0 ≤ (2 : Int) ∧ (2 : Int) < 20 ∧
      0 ≤ (1 : Int) ∧ (1 : Int) ≤ 20 ∧ (2 : Int) = (1 + 1) % 20 :=
  C20_cursor_invariant.1 (fun _ => ⟨0, 0⟩)
    [BufferCall.push ⟨1, 2⟩, BufferCall.push ⟨3, 4⟩, BufferCall.pop ⟨9, 9⟩]
    { angles := Function.update (Function.update (fun _ => ⟨0, 0⟩) 0 ⟨1, 2⟩) 1 ⟨3, 4⟩,
      size := 1, readIndex := 1, writeIndex := 2,
      drainCallback := none, emptyCallback := none } rfl

/-! ## The machine: the entry and do actions -/

/-- The entry action of `Adjusting` on a non-empty queue whose pop returns and
whose oldest target has a speed that divides: the target is popped and tracked,
the first step is marked pending and the interval computed. -/
theorem adjustingEntry_ok (m : ServoMod) (ev : List Event)
    (hsz : m.buffer.size ≠ 0) (hr : inBounds m.buffer.readIndex = true)
    (hev : popEvents (popped m.buffer) = .ok ev)
    (hsp : toUL (m.buffer.angles m.buffer.readIndex).speed ≠ 0) :
    m.adjustingEntry = .ok
      ({ m with
         buffer := popped m.buffer
         adjustingState :=
           { m.adjustingState with
             target := m.buffer.angles m.buffer.readIndex
             firstIter := true
             intervalMillis := 1000 / toUL (m.buffer.angles m.buffer.readIndex).speed } },
        ev) := by
  have hp := pop_some m.buffer m.adjustingState.target hsz hr
  rw [hev] at hp
  simp only at hp
  simp [ServoMod.adjustingEntry, hp, hsp]

theorem adjustingEntry_fatal_iff (m : ServoMod) :
    m.adjustingEntry = .error Fault.errorHandler ↔ m.buffer.size = 0 := by
  by_cases hs : m.buffer.size = 0
  · simp [ServoMod.adjustingEntry, pop_empty m.buffer _ hs, hs]
  · cases hr : inBounds m.buffer.readIndex
    · simp [ServoMod.adjustingEntry, pop_fault m.buffer _ hs hr, hs]
    · rcases popEvents_cases (popped m.buffer) with ⟨ev, hev⟩ | hev
      · have hp := pop_some m.buffer m.adjustingState.target hs hr
        rw [hev] at hp
        simp only at hp
        by_cases hsp : toUL (m.buffer.angles m.buffer.readIndex).speed = 0
        · simp [ServoMod.adjustingEntry, hp, hsp, hs]
        · simp [ServoMod.adjustingEntry, hp, hsp, hs]
      · have hp := pop_some m.buffer m.adjustingState.target hs hr
        rw [hev] at hp
        simp only at hp
        simp [ServoMod.adjustingEntry, hp, hs]

theorem stateExit_eq (m : ServoMod) : m.stateExit = m := by
  unfold ServoMod.stateExit ServoMod.adjustingExit
  split <;> rfl

/-- What the step of `adjustingDo` changes: the angle by one toward the target
with a write and a time stamp, or, at the target, the pending state. -/
theorem adjustingStep_spec (m : ServoMod) (t : Tick) :
    (m.adjustingStep t).buffer = m.buffer ∧ (m.adjustingStep t).state = m.state ∧
    (m.adjustingStep t).adjustingState.target = m.adjustingState.target ∧
    (m.adjustingStep t).adjustingState.firstIter = m.adjustingState.firstIter ∧
    (m.adjustingStep t).adjustingState.intervalMillis = m.adjustingState.intervalMillis ∧
    (m.angle < m.adjustingState.target.angle →
      (m.adjustingStep t).angle = m.angle + 1 ∧
      (m.adjustingStep t).servo = m.servo ++ [ServoOp.write (m.angle + 1)] ∧
      (m.adjustingStep t).adjustingState.lastMillis = millis t.stamp ∧
      (m.adjustingStep t).nextState = m.nextState) ∧
    (m.adjustingState.target.angle < m.angle →
      (m.adjustingStep t).angle = m.angle - 1 ∧
      (m.adjustingStep t).servo = m.servo ++ [ServoOp.write (m.angle - 1)] ∧
      (m.adjustingStep t).adjustingState.lastMillis = millis t.stamp ∧
      (m.adjustingStep t).nextState = m.nextState) ∧
    (m.adjustingState.target.angle = m.angle →
      (m.adjustingStep t).angle = m.angle ∧
      (m.adjustingStep t).servo = m.servo ∧
      (m.adjustingStep t).adjustingState.lastMillis = m.adjustingState.lastMillis ∧
      m.adjustingStep t = (m.transition State.Idle).2 ∧
      (m.state = State.Adjusting → (m.adjustingStep t).nextState = State.Idle)) := by
  rcases lt_trichotomy m.angle m.adjustingState.target.angle with h | h | h
  · rw [adjustingStep_up m t h]
    refine ⟨rfl, rfl, rfl, rfl, rfl, fun _ => ⟨rfl, rfl, rfl, rfl⟩, ?_, ?_⟩
    · intro h2
      omega
    · intro h2
      omega
  · have hstep : m.adjustingStep t = (m.transition State.Idle).2 := by
      simp [ServoMod.adjustingStep, h]
    rw [hstep]
    have htr : (m.transition State.Idle).2 = m ∨
        (m.transition State.Idle).2 = { m with nextState := State.Idle } := by
      unfold ServoMod.transition
      split
      · exact Or.inl rfl
      · exact Or.inr rfl
    have hnx : m.state = State.Adjusting → (m.transition State.Idle).2.nextState
        = State.Idle := by
      intro hst
      unfold ServoMod.transition
      split
      · rename_i hor
        rcases hor with hor | hor
        · rw [hst] at hor
          cases hor
        · exact hor.symm
      · rfl
    rcases htr with htr | htr <;> rw [htr] at hnx ⊢
    · refine ⟨rfl, rfl, rfl, rfl, rfl, ?_, ?_, fun _ => ⟨rfl, rfl, rfl, rfl, hnx⟩⟩
      · intro h2
        omega
      · intro h2
        omega
    · refine ⟨rfl, rfl, rfl, rfl, rfl, ?_, ?_, fun _ => ⟨rfl, rfl, rfl, rfl, hnx⟩⟩
      · intro h2
        omega
      · intro h2
        omega
  · rw [adjustingStep_down m t h]
    refine ⟨rfl, rfl, rfl, rfl, rfl, ?_, fun _ => ⟨rfl, rfl, rfl, rfl⟩, ?_⟩
    · intro h2
      omega
    · intro h2
      omega

/-- The do action when it proceeds: it is the step, on the machine with the
first-step flag cleared. -/
theorem adjustingDo_go (m : ServoMod) (t : Tick)
    (hgo : m.adjustingState.firstIter = true ∨
      m.adjustingState.intervalMillis ≤ subUL (millis t.check) m.adjustingState.lastMillis) :
    m.adjustingDo t = ServoMod.adjustingStep
      { m with adjustingState := { m.adjustingState with firstIter := false } } t := by
  cases hfi : m.adjustingState.firstIter
  · rcases hgo with hgo | hgo
    · rw [hfi] at hgo
      cases hgo
    · have hm : { m with adjustingState := { m.adjustingState with firstIter := false } }
          = m := by
        cases m with
        | mk buffer adjustingState servo state nextState angle pin =>
          cases adjustingState with
          | mk target lastMillis firstIter intervalMillis =>
            simp only at hfi
            subst hfi
            rfl
      rw [hm]
      simp [ServoMod.adjustingDo, hfi, Nat.not_lt.2 hgo]
  · simp [ServoMod.adjustingDo, hfi]

theorem adjustingDo_wait (m : ServoMod) (t : Tick)
    (hfi : m.adjustingState.firstIter = false)
    (hiv : subUL (millis t.check) m.adjustingState.lastMillis
      < m.adjustingState.intervalMillis) :
    m.adjustingDo t = m := by
  simp [ServoMod.adjustingDo, hfi, hiv]

theorem adjustingDo_cases (m : ServoMod) (t : Tick) :
    m.adjustingDo t = m ∨ m.adjustingDo t = ServoMod.adjustingStep
      { m with adjustingState := { m.adjustingState with firstIter := false } } t := by
  by_cases hgo : m.adjustingState.firstIter = true ∨
      m.adjustingState.intervalMillis ≤ subUL (millis t.check) m.adjustingState.lastMillis
  · exact Or.inr (adjustingDo_go m t hgo)
  · left
    apply adjustingDo_wait
    · cases hfi : m.adjustingState.firstIter
      · rfl
      · exact absurd (Or.inl hfi) hgo
    · have := fun h => hgo (Or.inr h)
      omega

/-- What a do action leaves alone and what it may request. -/
theorem stateDo_spec (m : ServoMod) (t : Tick) :
    (m.stateDo t).buffer = m.buffer ∧ (m.stateDo t).state = m.state ∧
    (m.stateDo t).adjustingState.target = m.adjustingState.target ∧
    ((m.stateDo t).nextState = m.nextState ∨
      (m.state = State.Adjusting ∧ (m.stateDo t).nextState = State.Idle) ∨
      (m.state = State.Idle ∧ (m.stateDo t).nextState = State.Adjusting ∧
        m.buffer.size ≠ 0)) ∧
    ((m.stateDo t).angle - m.angle).natAbs ≤ 1 ∧
    (m.adjustingState.target.angle - (m.stateDo t).angle).natAbs
      ≤ (m.adjustingState.target.angle - m.angle).natAbs := by
  cases hst : m.state
  · simp [ServoMod.stateDo, hst]
  · simp only [ServoMod.stateDo, hst, ServoMod.idleDo, ServoMod.transition,
      SpeedServoBuffer.isEmpty]
    by_cases hs : m.buffer.size = 0
    · simp [hs, hst]
    · by_cases hnx : State.Adjusting = m.nextState
      · simp [hs, hst, hnx]
      · simp [hs, hst, hnx]
  · simp only [ServoMod.stateDo, hst]
    rcases adjustingDo_cases m t with h | h
    · rw [h]
      simp [hst]
    · rw [h]
      obtain ⟨h1, h2, h3, -, -, hup, hdown, hat⟩ := adjustingStep_spec
        { m with adjustingState := { m.adjustingState with firstIter := false } } t
      simp only at h1 h2 h3 hup hdown hat
      refine ⟨h1, by rw [h2, hst], h3, ?_, ?_, ?_⟩
      · rcases lt_trichotomy m.angle m.adjustingState.target.angle with h | h | h
        · exact Or.inl (hup h).2.2.2
        · exact Or.inr (Or.inl ⟨trivial, (hat h.symm).2.2.2.2 hst⟩)
        · exact Or.inl (hdown h).2.2.2
      · rcases lt_trichotomy m.angle m.adjustingState.target.angle with h | h | h
        · rw [(hup h).1]
          omega
        · rw [(hat h.symm).1]
          omega
        · rw [(hdown h).1]
          omega
      · rcases lt_trichotomy m.angle m.adjustingState.target.angle with h | h | h
        · rw [(hup h).1]
          omega
        · rw [(hat h.symm).1]
        · rw [(hdown h).1]
          omega

/-- An entry action that returns leaves the states, the angle and the servo
alone, and outside `Adjusting` it leaves everything alone. -/
theorem stateEntry_spec (m x : ServoMod) (ev : List Event)
    (h : m.stateEntry = .ok (x, ev)) :
    x.state = m.state ∧ x.nextState = m.nextState ∧ x.angle = m.angle ∧
    x.servo = m.servo ∧ (m.state ≠ State.Adjusting → x = m ∧ ev = []) ∧
    (m.state = State.Adjusting → m.buffer.size ≠ 0 ∧ x.buffer = popped m.buffer ∧
      x.adjustingState.target = m.buffer.angles m.buffer.readIndex ∧
      x.adjustingState.firstIter = true ∧
      x.adjustingState.intervalMillis
        = 1000 / toUL (m.buffer.angles m.buffer.readIndex).speed ∧
      x.adjustingState.lastMillis = m.adjustingState.lastMillis) := by
  cases hst : m.state
  · simp only [ServoMod.stateEntry, hst] at h
    cases h
    simp [hst]
  · simp only [ServoMod.stateEntry, hst] at h
    cases h
    simp [hst]
  · simp only [ServoMod.stateEntry, hst] at h
    have hs : m.buffer.size ≠ 0 := by
      intro hs
      rw [(adjustingEntry_fatal_iff m).2 hs] at h
      cases h
    cases hr : inBounds m.buffer.readIndex
    · simp [ServoMod.adjustingEntry, pop_fault m.buffer _ hs hr] at h
    · rcases popEvents_cases (popped m.buffer) with ⟨ev2, hev⟩ | hev
      · by_cases hsp : toUL (m.buffer.angles m.buffer.readIndex).speed = 0
        · have hp := pop_some m.buffer m.adjustingState.target hs hr
          rw [hev] at hp
          simp only at hp
          simp [ServoMod.adjustingEntry, hp, hsp] at h
        · rw [adjustingEntry_ok m ev2 hs hr hev hsp] at h
          cases h
          simp [hst, hs]
      · have hp := pop_some m.buffer m.adjustingState.target hs hr
        rw [hev] at hp
        simp only at hp
        simp [ServoMod.adjustingEntry, hp] at h

/-- The three phases of a tick that returns. -/
theorem loop_spec (m x : ServoMod) (t : Tick) (ev : List Event)
    (h : m.loop t = .ok (x, ev)) :
    ∃ m2, x = m2.stateDo t ∧
      ((m.state = m.nextState ∧ m2 = m ∧ ev = []) ∨
        (m.state ≠ m.nextState ∧
          ServoMod.stateEntry { m with state := m.nextState } = .ok (m2, ev))) := by
  by_cases hne : m.state = m.nextState
  · simp only [ServoMod.loop, hne, ne_eq, not_true_eq_false, if_false] at h
    cases h
    exact ⟨m, rfl, Or.inl ⟨hne, rfl, rfl⟩⟩
  · simp only [ServoMod.loop, ne_eq, hne, not_false_eq_true, if_true, stateExit_eq] at h
    cases he : ServoMod.stateEntry { m with state := m.nextState } with
    | error f =>
      rw [he] at h
      cases h
    | ok p =>
      obtain ⟨m2, ev2⟩ := p
      rw [he] at h
      cases h
      exact ⟨m2, rfl, Or.inr ⟨hne, rfl⟩⟩

theorem popEvents_ok_of (b : SpeedServoBuffer)
    (h : b.drainCallback ≠ none ∨ b.size ≠ 10) : ∃ ev, popEvents b = .ok ev := by
  rcases popEvents_cases b with hev | hev
  · exact hev
  · exfalso
    unfold popEvents notify at hev
    simp only [SPEED_SERVO_BUFFER_HALF_SIZE] at hev
    split at hev
    · cases hev
    · split at hev
      · rename_i h10
        cases hd : b.drainCallback with
        | none =>
          rcases h with h | h
          · exact h hd
          · exact h h10
        | some cb =>
          rw [hd] at hev
          cases hev
      · cases hev

/-- A tick that enters `Adjusting`: the oldest target is popped and tracked, the
interval computed, and the first step taken in the same tick. -/
theorem loop_enter (m : ServoMod) (t : Tick) (ev : List Event)
    (hst : m.state ≠ State.Adjusting) (hnx : m.nextState = State.Adjusting)
    (hsz : m.buffer.size ≠ 0) (hr : inBounds m.buffer.readIndex = true)
    (hev : popEvents (popped m.buffer) = .ok ev)
    (hsp : toUL (m.buffer.angles m.buffer.readIndex).speed ≠ 0) :
    m.loop t = .ok
      (ServoMod.adjustingStep
        { m with
          state := State.Adjusting
          buffer := popped m.buffer
          adjustingState :=
            { target := m.buffer.angles m.buffer.readIndex
              lastMillis := m.adjustingState.lastMillis
              firstIter := false
              intervalMillis := 1000 / toUL (m.buffer.angles m.buffer.readIndex).speed } }
        t, ev) := by
  have he := adjustingEntry_ok { m with state := State.Adjusting } ev hsz hr hev hsp
  simp only [hnx] at he
  have hst2 : ¬ (m.state = State.Adjusting) := hst
  simp only [ServoMod.loop, hnx, ne_eq, hst2, not_false_eq_true, if_true, stateExit_eq,
    ServoMod.stateEntry, he]
  simp [ServoMod.stateDo, ServoMod.adjustingDo]

/-! ## Claims C14 to C17 and C19 -/

/-- C14 (three-phase tick).  When `state != nextState`, one call of `loop()` is
the exit action of the old state, then the commit `state := nextState`, then
the entry action of the new state, then the do action of the new state, and
the call faults if the entry action does; when `state == nextState` it is the
do action alone.  From `Idle` with `Adjusting` pending and a well-formed
non-empty queue whose oldest target `T` has an angle other than the current one
(its speed non-zero, the pop not calling a null drain pointer), one call leaves
the machine in `Adjusting`, `T` taken off the queue and tracked, and the angle
already one degree closer to `T.angle`, written to the servo and time-stamped. -/
theorem C14_three_phase_tick :
    (∀ (m : ServoMod) (t : Tick), m.state ≠ m.nextState →
      m.loop t =
        match ServoMod.stateEntry { m.stateExit with state := m.stateExit.nextState } with
        | .error f => .error f
        | .ok (m2, ev) => .ok (m2.stateDo t, ev)) ∧
    (∀ (m : ServoMod) (t : Tick), m.state = m.nextState →
      m.loop t = .ok (m.stateDo t, [])) ∧
    (∀ (m : ServoMod) (t : Tick) (T : SpeedServoTarget),
      m.state = State.Idle → m.nextState = State.Adjusting →
      m.buffer.wellFormed → m.buffer.size ≠ 0 →
      m.buffer.angles m.buffer.readIndex = T → T.angle ≠ m.angle →
      T.speed ≠ 0 → isInt T.speed →
      (m.buffer.drainCallback ≠ none ∨ m.buffer.size - 1 ≠ 10) →
      ∃ x ev, m.loop t = .ok (x, ev) ∧
        x.state = State.Adjusting ∧ x.nextState = State.Adjusting ∧
        x.buffer.size = m.buffer.size - 1 ∧
        m.buffer.contents = T :: x.buffer.contents ∧
        x.adjustingState.target = T ∧ x.adjustingState.firstIter = false ∧
        (m.angle < T.angle → x.angle = m.angle + 1) ∧
        (T.angle < m.angle → x.angle = m.angle - 1) ∧
        x.servo = m.servo ++ [ServoOp.write x.angle] ∧
        x.adjustingState.lastMillis = millis t.stamp) := by
  refine ⟨?_, ?_, ?_⟩
  · intro m t hne
    simp only [ServoMod.loop, ne_eq, hne, not_false_eq_true, if_true]
  · intro m t he
    simp [ServoMod.loop, he]
  · intro m t T hst hnx hwf hsz hT hang hsp hint hcb
    subst hT
    obtain ⟨ev, hev⟩ := popEvents_ok_of (popped m.buffer) (by simpa [popped] using hcb)
    have hloop := loop_enter m t ev (by rw [hst]; decide) hnx hsz
      (wellFormed_inBounds_read _ hwf) hev (toUL_ne_zero _ hsp hint)
    obtain ⟨h1, h2, h3, h4, -, hup, hdown, -⟩ := adjustingStep_spec
      { m with
        state := State.Adjusting
        buffer := popped m.buffer
        adjustingState :=
          { target := m.buffer.angles m.buffer.readIndex
            lastMillis := m.adjustingState.lastMillis
            firstIter := false
            intervalMillis := 1000 / toUL (m.buffer.angles m.buffer.readIndex).speed } } t
    simp only at h1 h2 h3 h4 hup hdown
    have hcont := (popped_wellFormed m.buffer hwf hsz).2
    refine ⟨_, ev, hloop, h2, ?_, ?_, ?_, ?_, h4, ?_, ?_, ?_, ?_⟩
    · rcases lt_or_gt_of_ne hang with h | h
      · rw [(hdown h).2.2.2, hnx]
      · rw [(hup h).2.2.2, hnx]
    · rw [h1]
      rfl
    · rw [h1]
      exact hcont
    · rw [h3]
    · intro h
      exact (hup h).1
    · intro h
      exact (hdown h).1
    · rcases lt_or_gt_of_ne hang with h | h
      · rw [(hdown h).2.1, (hdown h).1]
      · rw [(hup h).2.1, (hup h).1]
    · rcases lt_or_gt_of_ne hang with h | h
      · exact (hdown h).2.2.1
      · exact (hup h).2.2.1

/-- C14 at a concrete input: `Idle` at angle 0 with `Adjusting` pending and a
queue holding the one target `{5, 100}`. -/
theorem C14_three_phase_tick_witness :
    ∃ x ev, ({ idleWith 0 ⟨5, 100⟩ with nextState := State.Adjusting } : ServoMod).loop ⟨7, 8⟩
        = .ok (x, ev) ∧
      x.state = State.Adjusting ∧ x.nextState = State.Adjusting ∧
      x.buffer.size = (idleWith 0 ⟨5, 100⟩).buffer.size - 1 ∧
      (idleWith 0 ⟨5, 100⟩).buffer.contents = ⟨5, 100⟩ :: x.buffer.contents ∧
      x.adjustingState.target = ⟨5, 100⟩ ∧ x.adjustingState.firstIter = false ∧
      ((0 : Int) < 5 → x.angle = 0 + 1) ∧
      ((5 : Int) < 0 → x.angle = 0 - 1) ∧
      x.servo = (idleWith 0 ⟨5, 100⟩).servo ++ [ServoOp.write x.angle] ∧
      x.adjustingState.lastMillis = millis 8 :=
  C14_three_phase_tick.2.2 { idleWith 0 ⟨5, 100⟩ with nextState := State.Adjusting }
    ⟨7, 8⟩ ⟨5, 100⟩ rfl rfl (by decide) (by decide) rfl (by decide) (by decide)
    (by decide) (Or.inl (by decide))

/-- C15 (single-step rule).  When the do action of `Adjusting` proceeds (first
step, or the interval has passed on the clock): below the target the angle
grows by exactly 1, above it it shrinks by exactly 1, and in both cases the new
angle is written to the servo and the time stamp is set to the clock; at the
target the action requests `Idle` and leaves the angle, the time stamp and the
servo alone.  Whether it proceeds or not, the do action, and so every tick
that returns, changes the angle by at most 1 and never moves it away from the
target tracked after the tick. -/
theorem C15_single_step :
    (∀ (m : ServoMod) (t : Tick),
      (m.adjustingState.firstIter = true ∨
        m.adjustingState.intervalMillis
          ≤ subUL (millis t.check) m.adjustingState.lastMillis) →
      (m.angle < m.adjustingState.target.angle →
        (m.adjustingDo t).angle = m.angle + 1 ∧
        (m.adjustingDo t).servo = m.servo ++ [ServoOp.write (m.angle + 1)] ∧
        (m.adjustingDo t).adjustingState.lastMillis = millis t.stamp) ∧
      (m.adjustingState.target.angle < m.angle →
        (m.adjustingDo t).angle = m.angle - 1 ∧
        (m.adjustingDo t).servo = m.servo ++ [ServoOp.write (m.angle - 1)] ∧
        (m.adjustingDo t).adjustingState.lastMillis = millis t.stamp) ∧
      (m.adjustingState.target.angle = m.angle →
        (m.adjustingDo t).angle = m.angle ∧
        (m.adjustingDo t).servo = m.servo ∧
        (m.adjustingDo t).adjustingState.lastMillis = m.adjustingState.lastMillis ∧
        (m.state = State.Adjusting → (m.adjustingDo t).nextState = State.Idle))) ∧
    (∀ (m : ServoMod) (t : Tick),
      ((m.adjustingDo t).angle - m.angle).natAbs ≤ 1 ∧
      (m.adjustingState.target.angle - (m.adjustingDo t).angle).natAbs
        ≤ (m.adjustingState.target.angle - m.angle).natAbs) ∧
    (∀ (m x : ServoMod) (t : Tick) (ev : List Event), m.loop t = .ok (x, ev) →
      (x.angle - m.angle).natAbs ≤ 1 ∧
      (x.adjustingState.target.angle - x.angle).natAbs
        ≤ (x.adjustingState.target.angle - m.angle).natAbs) := by
  refine ⟨?_, ?_, ?_⟩
  · intro m t hgo
    rw [adjustingDo_go m t hgo]
    obtain ⟨-, h2, -, -, -, hup, hdown, hat⟩ := adjustingStep_spec
      { m with adjustingState := { m.adjustingState with firstIter := false } } t
    simp only at h2 hup hdown hat
    refine ⟨?_, ?_, ?_⟩
    · intro h
      exact ⟨(hup h).1, (hup h).2.1, (hup h).2.2.1⟩
    · intro h
      exact ⟨(hdown h).1, (hdown h).2.1, (hdown h).2.2.1⟩
    · intro h
      exact ⟨(hat h).1, (hat h).2.1, (hat h).2.2.1, (hat h).2.2.2.2⟩
  · intro m t
    have h := stateDo_spec { m with state := State.Adjusting } t
    simp only [ServoMod.stateDo] at h
    have hang : ∀ y : ServoMod, (ServoMod.adjustingDo { y with state := State.Adjusting } t).angle
        = (y.adjustingDo t).angle := by
      intro y
      unfold ServoMod.adjustingDo ServoMod.adjustingStep ServoMod.transition
      simp only
      split_ifs <;> rfl
    rw [hang m] at h
    exact ⟨h.2.2.2.2.1, h.2.2.2.2.2⟩
  · intro m x t ev hloop
    obtain ⟨m2, hx, hcase⟩ := loop_spec m x t ev hloop
    have hdo := stateDo_spec m2 t
    rw [← hx] at hdo
    have hm2 : m2.angle = m.angle := by
      rcases hcase with ⟨-, h, -⟩ | ⟨-, h⟩
      · rw [h]
      · exact (stateEntry_spec _ m2 ev h).2.2.1
    rw [hdo.2.2.1, ← hm2]
    exact ⟨hdo.2.2.2.2.1, hdo.2.2.2.2.2⟩

/-- C15 at a concrete input: a first step from angle 3 toward the target 9. -/
theorem C15_single_step_witness :
    ((3 : Int) < 9 →
        (ServoMod.adjustingDo
          { idleWith 3 ⟨9, 10⟩ with
            state := State.Adjusting, nextState := State.Adjusting,
            adjustingState := ⟨⟨9, 10⟩, 77, true, 100⟩ } ⟨80, 81⟩).angle = 3 + 1 ∧
        (ServoMod.adjustingDo
          { idleWith 3 ⟨9, 10⟩ with
            state := State.Adjusting, nextState := State.Adjusting,
            adjustingState := ⟨⟨9, 10⟩, 77, true, 100⟩ } ⟨80, 81⟩).servo
          = (idleWith 3 ⟨9, 10⟩).servo ++ [ServoOp.write (3 + 1)] ∧
        (ServoMod.adjustingDo
          { idleWith 3 ⟨9, 10⟩ with
            state := State.Adjusting, nextState := State.Adjusting,
            adjustingState := ⟨⟨9, 10⟩, 77, true, 100⟩ } ⟨80, 81⟩).adjustingState.lastMillis
          = millis 81) :=
  (C15_single_step.1
    { idleWith 3 ⟨9, 10⟩ with
      state := State.Adjusting, nextState := State.Adjusting,
      adjustingState := ⟨⟨9, 10⟩, 77, true, 100⟩ } ⟨80, 81⟩ (Or.inl rfl)).1

theorem subUL_millis_mod (x y : Nat) (h : y ≤ x) :
    subUL (millis x) (millis y) = (x - y) % ULONG_MOD := by
  unfold subUL millis ULONG_MOD
  omega

theorem subUL_mod (l e : Nat) (he : e < ULONG_MOD) :
    subUL ((l + e) % ULONG_MOD) l = e := by
  unfold subUL ULONG_MOD at *
  omega

/-- C16 (pacing).  In `Adjusting` with nothing pending and the first step
taken, a tick at which the clock difference to the last step is below the
interval returns the machine as it is and calls no callback; so does a tick at
a time less than the interval after the time of the last step.  With the first
step pending the do action proceeds whatever the stored time stamp and the
clock are: it is the step on the machine with the flag cleared, it leaves the
flag cleared, and it moves the angle unless the angle is the target's. -/
theorem C16_pacing :
    (∀ (m : ServoMod) (t : Tick), m.state = State.Adjusting →
      m.nextState = State.Adjusting → m.adjustingState.firstIter = false →
      subUL (millis t.check) m.adjustingState.lastMillis
        < m.adjustingState.intervalMillis →
      m.loop t = .ok (m, [])) ∧
    (∀ (m : ServoMod) (t : Tick) (last : Nat), m.state = State.Adjusting →
      m.nextState = State.Adjusting → m.adjustingState.firstIter = false →
      m.adjustingState.lastMillis = millis last → last ≤ t.check →
      t.check - last < m.adjustingState.intervalMillis →
      m.loop t = .ok (m, [])) ∧
    (∀ (m : ServoMod) (t : Tick), m.adjustingState.firstIter = true →
      m.adjustingDo t = ServoMod.adjustingStep
        { m with adjustingState := { m.adjustingState with firstIter := false } } t ∧
      (m.adjustingDo t).adjustingState.firstIter = false ∧
      (m.adjustingState.target.angle ≠ m.angle → (m.adjustingDo t).angle ≠ m.angle) ∧
      (m.state = State.Adjusting → m.nextState = State.Adjusting →
        m.loop t = .ok (m.adjustingDo t, []))) := by
  refine ⟨?_, ?_, ?_⟩
  · intro m t hst hnx hfi hiv
    exact loop_adjusting_wait m t hst hnx hfi hiv
  · intro m t last hst hnx hfi hlast hle hiv
    apply loop_adjusting_wait m t hst hnx hfi
    rw [hlast, subUL_millis_mod _ _ hle]
    exact lt_of_le_of_lt (Nat.mod_le _ _) hiv
  · intro m t hfi
    have hgo := adjustingDo_go m t (Or.inl hfi)
    obtain ⟨-, -, -, h4, -, hup, hdown, -⟩ := adjustingStep_spec
      { m with adjustingState := { m.adjustingState with firstIter := false } } t
    simp only at h4 hup hdown
    refine ⟨hgo, ?_, ?_, ?_⟩
    · rw [hgo]
      exact h4
    · intro hne
      rw [hgo]
      rcases lt_or_gt_of_ne hne with h | h
      · rw [(hdown h).1]
        omega
      · rw [(hup h).1]
        omega
    · intro hst hnx
      simp [ServoMod.loop, ServoMod.stateDo, hst, hnx]

/-- C16 at a concrete input: 3 ms after the last step with an interval of
10 ms. -/
theorem C16_pacing_witness :
    ServoMod.loop
        { idleWith 3 ⟨9, 100⟩ with
          state := State.Adjusting, nextState := State.Adjusting,
          adjustingState := ⟨⟨9, 100⟩, 77, false, 10⟩ } ⟨80, 81⟩
      = .ok ({ idleWith 3 ⟨9, 100⟩ with
               state := State.Adjusting, nextState := State.Adjusting,
               adjustingState := ⟨⟨9, 100⟩, 77, false, 10⟩ }, []) :=
  C16_pacing.2.1
    { idleWith 3 ⟨9, 100⟩ with
      state := State.Adjusting, nextState := State.Adjusting,
      adjustingState := ⟨⟨9, 100⟩, 77, false, 10⟩ } ⟨80, 81⟩ 77 rfl rfl rfl rfl
    (by decide) (by decide)

/-- C17 (interval computation).  The entry action of `Adjusting`, on a
non-empty queue whose pop returns and whose oldest target has speed `s > 0`,
returns with that target tracked, `intervalMillis = 1000 / s` rounded down and
the first step pending.  For `s > 1000` that interval is 0, and in `Adjusting`
with nothing pending and an interval of 0 every tick, whatever the clock reads,
takes a step toward the target, or requests `Idle` when at the target. -/
theorem C17_interval :
    (∀ (m : ServoMod) (s : Int) (ev : List Event), m.buffer.size ≠ 0 →
      inBounds m.buffer.readIndex = true →
      (m.buffer.angles m.buffer.readIndex).speed = s → 0 < s → isInt s →
      popEvents (popped m.buffer) = .ok ev →
      ∃ x, m.adjustingEntry = .ok (x, ev) ∧
        x.adjustingState.target = m.buffer.angles m.buffer.readIndex ∧
        x.adjustingState.intervalMillis = (1000 / s).toNat ∧
        x.adjustingState.firstIter = true) ∧
    (∀ s : Int, 1000 < s → isInt s → 1000 / toUL s = 0 ∧ (1000 / s).toNat = 0) ∧
    (∀ (m : ServoMod) (t : Tick), m.state = State.Adjusting →
      m.nextState = State.Adjusting → m.adjustingState.intervalMillis = 0 →
      ∃ x, m.loop t = .ok (x, []) ∧
        (m.angle < m.adjustingState.target.angle →
          x.angle = m.angle + 1 ∧ x.servo = m.servo ++ [ServoOp.write (m.angle + 1)]) ∧
        (m.adjustingState.target.angle < m.angle →
          x.angle = m.angle - 1 ∧ x.servo = m.servo ++ [ServoOp.write (m.angle - 1)]) ∧
        (m.adjustingState.target.angle = m.angle →
          x.angle = m.angle ∧ x.nextState = State.Idle)) := by
  refine ⟨?_, ?_, ?_⟩
  · intro m s ev hsz hr hs hpos hint hev
    have hsp : toUL (m.buffer.angles m.buffer.readIndex).speed ≠ 0 := by
      rw [hs]
      exact toUL_ne_zero s (by omega) hint
    refine ⟨_, adjustingEntry_ok m ev hsz hr hev hsp, rfl, ?_, rfl⟩
    simp only [hs]
    exact interval_pos s (by omega) hint
  · intro s hs hint
    have h1 := interval_pos s (by omega) hint
    have h2 : (1000 / s).toNat = 0 := by
      have : (1000 : Int) / s = 0 := Int.ediv_eq_zero_of_lt (by decide) hs
      rw [this]
      rfl
    exact ⟨by rw [h1, h2], h2⟩
  · intro m t hst hnx hiv
    have hgo := adjustingDo_go m t (Or.inr (by rw [hiv]; exact Nat.zero_le _))
    obtain ⟨-, h2, -, -, -, hup, hdown, hat⟩ := adjustingStep_spec
      { m with adjustingState := { m.adjustingState with firstIter := false } } t
    simp only at h2 hup hdown hat
    refine ⟨m.adjustingDo t, by simp [ServoMod.loop, ServoMod.stateDo, hst, hnx], ?_, ?_, ?_⟩
    · intro h
      rw [hgo]
      exact ⟨(hup h).1, (hup h).2.1⟩
    · intro h
      rw [hgo]
      exact ⟨(hdown h).1, (hdown h).2.1⟩
    · intro h
      rw [hgo]
      exact ⟨(hat h).1, (hat h).2.2.2.2 hst⟩

/-- C17 at a concrete input: the entry action on a queue holding the one
target `{5, 300}`, interval `1000 / 300 = 3`. -/
theorem C17_interval_witness :
    ∃ x, ServoMod.adjustingEntry
        { idleWith 0 ⟨5, 300⟩ with state := State.Adjusting, nextState := State.Adjusting }
        = .ok (x, [Event.empty 1]) ∧
      x.adjustingState.target = ⟨5, 300⟩ ∧
      x.adjustingState.intervalMillis = ((1000 : Int) / 300).toNat ∧
      x.adjustingState.firstIter = true :=
  C17_interval.1
    { idleWith 0 ⟨5, 300⟩ with state := State.Adjusting, nextState := State.Adjusting }
    300 [Event.empty 1] (by decide) rfl rfl (by decide) (by decide) rfl

/-- C19 (timer wrap-around).  The pacing check subtracts modulo `2^32`: for
every time `last` of the last step and every elapsed time `e < 2^32` the
difference of the clock at `last + e` and the clock at `last` is `e`, also when
the clock has wrapped in between; the same holds of every stored 32-bit value
`l`.  So after the first step, at elapsed time `e < 2^32` the do action takes
the step when `e >= intervalMillis` and does nothing when `e < intervalMillis`. -/
theorem C19_timer_wrap :
    (∀ last e : Nat, e < ULONG_MOD → subUL (millis (last + e)) (millis last) = e) ∧
    (∀ l e : Nat, e < ULONG_MOD → subUL ((l + e) % ULONG_MOD) l = e) ∧
    (∀ (m : ServoMod) (t : Tick) (last e : Nat), m.adjustingState.firstIter = false →
      m.adjustingState.lastMillis = millis last → t.check = last + e → e < ULONG_MOD →
      (m.adjustingState.intervalMillis ≤ e → m.adjustingDo t = m.adjustingStep t) ∧
      (e < m.adjustingState.intervalMillis → m.adjustingDo t = m)) := by
  have h1 : ∀ last e : Nat, e < ULONG_MOD →
      subUL (millis (last + e)) (millis last) = e := by
    intro last e he
    rw [subUL_millis (last + e) last (by omega) (by omega)]
    omega
  refine ⟨h1, subUL_mod, ?_⟩
  intro m t last e hfi hlast hchk he
  have hsub : subUL (millis t.check) m.adjustingState.lastMillis = e := by
    rw [hlast, hchk]
    exact h1 last e he
  constructor
  · intro hiv
    simp [ServoMod.adjustingDo, hfi, hsub, Nat.not_lt.2 hiv]
  · intro hiv
    simp [ServoMod.adjustingDo, hfi, hsub, hiv]

/-- C19 at a concrete input: the last step 5 ms before the clock wraps, the
check 10 ms later, when the clock reads 5. -/
theorem C19_timer_wrap_witness :
    subUL (millis (4294967291 + 10)) (millis 4294967291) = 10 ∧ millis (4294967291 + 10) = 5 :=
  ⟨C19_timer_wrap.1 4294967291 10 (by decide), by decide⟩

/-! ## The machine under calls from outside (claims C12 and C13) -/

/-- The states after a tick that returns: the pending state has become the
state, and the do action of that state may have requested the other one. -/
theorem loop_states (m x : ServoMod) (t : Tick) (ev : List Event)
    (h : m.loop t = .ok (x, ev)) :
    x.state = m.nextState ∧
    (x.nextState = m.nextState ∨
      (m.nextState = State.Adjusting ∧ x.nextState = State.Idle) ∨
      (m.nextState = State.Idle ∧ x.nextState = State.Adjusting ∧ x.buffer.size ≠ 0)) := by
  obtain ⟨m2, hx, hcase⟩ := loop_spec m x t ev h
  have hm2 : m2.state = m.nextState ∧ m2.nextState = m.nextState := by
    rcases hcase with ⟨he, h2, -⟩ | ⟨-, h2⟩
    · rw [h2]
      exact ⟨he, rfl⟩
    · have := stateEntry_spec _ m2 ev h2
      exact ⟨this.1, this.2.1⟩
  obtain ⟨hbuf, hst, -, hnx, -⟩ := stateDo_spec m2 t
  rw [← hx] at hbuf hst hnx
  rw [hm2.1] at hst hnx
  rw [hm2.2] at hnx
  refine ⟨hst, ?_⟩
  rcases hnx with h1 | h1 | h1
  · exact Or.inl h1
  · exact Or.inr (Or.inl h1)
  · exact Or.inr (Or.inr ⟨h1.1, h1.2.1, by rw [hbuf]; exact h1.2.2⟩)

theorem setup_states (m : ServoMod) :
    m.setup.2.buffer = m.buffer ∧ m.setup.2.state = m.state ∧
    (m.setup.2.nextState = m.nextState ∨
      (m.state = State.Uninitialized ∧ m.setup.2.nextState = State.Idle)) := by
  unfold ServoMod.setup ServoMod.transition
  by_cases hst : m.state = State.Uninitialized
  · by_cases hnx : State.Idle = m.nextState
    · simp [hst, hnx]
    · simp [hst, hnx]
  · simp [hst]

theorem call_lifecycle (m x : ServoMod) (c : MachineCall)
    (hl : m.lifecycle) (h : m.call c = .ok x) : x.lifecycle := by
  unfold ServoMod.lifecycle at *
  cases c with
  | setup =>
    simp only [ServoMod.call, Except.ok.injEq] at h
    subst h
    obtain ⟨-, hst, hnx⟩ := setup_states m
    rw [hst]
    rcases hnx with hnx | hnx
    · rw [hnx]
      exact hl
    · rw [hnx.2]
      exact Or.inl ⟨hnx.1, Or.inr rfl⟩
  | loop t =>
    simp only [ServoMod.call] at h
    cases hloop : m.loop t with
    | error f => rw [hloop] at h; cases h
    | ok p =>
      obtain ⟨x2, ev⟩ := p
      rw [hloop] at h
      simp only [Except.ok.injEq] at h
      subst h
      obtain ⟨hst, hnx⟩ := loop_states m x2 t ev hloop
      rw [hst]
      cases hm : m.nextState
      · rw [hm] at hnx
        simp only [false_and, or_false, reduceCtorEq] at hnx
        rw [hnx]
        exact Or.inl ⟨rfl, Or.inl rfl⟩
      · rw [hm] at hnx
        simp only [false_and, false_or, true_and, reduceCtorEq] at hnx
        rcases hnx with hnx | hnx
        · rw [hnx]
          exact Or.inr ⟨Or.inl rfl, Or.inl rfl⟩
        · rw [hnx.1]
          exact Or.inr ⟨Or.inl rfl, Or.inr rfl⟩
      · rw [hm] at hnx
        simp only [false_and, or_false, true_and, reduceCtorEq] at hnx
        rcases hnx with hnx | hnx
        · rw [hnx]
          exact Or.inr ⟨Or.inr rfl, Or.inr rfl⟩
        · rw [hnx]
          exact Or.inr ⟨Or.inr rfl, Or.inl rfl⟩
  | push t =>
    simp only [ServoMod.call] at h
    cases hp : m.buffer.push t with
    | error f => rw [hp] at h; cases h
    | ok r =>
      rw [hp] at h
      simp only [Except.ok.injEq] at h
      subst h
      exact hl
  | onDrain cb =>
    simp only [ServoMod.call, Except.ok.injEq] at h
    subst h
    exact hl
  | onEmpty cb =>
    simp only [ServoMod.call, Except.ok.injEq] at h
    subst h
    exact hl

theorem call_leaves_uninitialized (m x : ServoMod) (c : MachineCall)
    (hl : m.lifecycle) (hne : m.state ≠ State.Uninitialized) (h : m.call c = .ok x) :
    x.state ≠ State.Uninitialized := by
  have hnx : m.nextState ≠ State.Uninitialized := by
    unfold ServoMod.lifecycle at hl
    rcases hl with hl | hl
    · exact absurd hl.1 hne
    · rcases hl.2 with h2 | h2 <;> rw [h2] <;> decide
  cases c with
  | setup =>
    simp only [ServoMod.call, Except.ok.injEq] at h
    subst h
    rw [(setup_states m).2.1]
    exact hne
  | loop t =>
    simp only [ServoMod.call] at h
    cases hloop : m.loop t with
    | error f => rw [hloop] at h; cases h
    | ok p =>
      obtain ⟨x2, ev⟩ := p
      rw [hloop] at h
      simp only [Except.ok.injEq] at h
      subst h
      rw [(loop_states m x2 t ev hloop).1]
      exact hnx
  | push t =>
    simp only [ServoMod.call] at h
    cases hp : m.buffer.push t with
    | error f => rw [hp] at h; cases h
    | ok r =>
      rw [hp] at h
      simp only [Except.ok.injEq] at h
      subst h
      exact hne
  | onDrain cb =>
    simp only [ServoMod.call, Except.ok.injEq] at h
    subst h
    exact hne
  | onEmpty cb =>
    simp only [ServoMod.call, Except.ok.injEq] at h
    subst h
    exact hne

theorem runCalls_lifecycle (cs : List MachineCall) :
    ∀ m x : ServoMod, m.lifecycle → m.runCalls cs = .ok x →
      x.lifecycle ∧ (m.state ≠ State.Uninitialized → x.state ≠ State.Uninitialized) := by
  induction cs with
  | nil =>
    intro m x hl h
    simp only [ServoMod.runCalls, Except.ok.injEq] at h
    subst h
    exact ⟨hl, fun h => h⟩
  | cons c cs ih =>
    intro m x hl h
    simp only [ServoMod.runCalls] at h
    cases hc : m.call c with
    | error f => rw [hc] at h; cases h
    | ok m1 =>
      rw [hc] at h
      have hl1 := call_lifecycle m m1 c hl hc
      obtain ⟨hlx, hnex⟩ := ih m1 x hl1 h
      exact ⟨hlx, fun hne => hnex (call_leaves_uninitialized m m1 c hl hne hc)⟩

/-- C12 (lifecycle).  A machine is constructed with `state` and `nextState`
both `Uninitialized`.  Along any finite sequence of calls of `setup()`, `loop()`
and, on the queue, `push` and the setters, once the state is `Idle` it is never
`Uninitialized` again: from then on `state` and `nextState` are each `Idle` or
`Adjusting`. -/
theorem C12_lifecycle (pin : Int) (mem : Int → SpeedServoTarget) (adj : AdjustingState) :
    (ServoMod.new pin mem adj).state = State.Uninitialized ∧
    (ServoMod.new pin mem adj).nextState = State.Uninitialized ∧
    (∀ (cs1 cs2 : List MachineCall) (m1 m2 : ServoMod),
      (ServoMod.new pin mem adj).runCalls cs1 = .ok m1 → m1.state = State.Idle →
      m1.runCalls cs2 = .ok m2 →
      (m2.state = State.Idle ∨ m2.state = State.Adjusting) ∧
      (m2.nextState = State.Idle ∨ m2.nextState = State.Adjusting)) := by
  refine ⟨rfl, rfl, ?_⟩
  intro cs1 cs2 m1 m2 h1 hidle h2
  have hl0 : (ServoMod.new pin mem adj).lifecycle := Or.inl ⟨rfl, Or.inl rfl⟩
  have hl1 := (runCalls_lifecycle cs1 _ m1 hl0 h1).1
  obtain ⟨hl2, hne⟩ := runCalls_lifecycle cs2 m1 m2 hl1 h2
  have hne2 := hne (by rw [hidle]; decide)
  rcases hl2 with hl2 | hl2
  · exact absurd hl2.1 hne2
  · exact hl2

/-- C12 at a concrete input: `setup()` and a tick, then a push and two ticks. -/
theorem C12_lifecycle_witness :
    (State.Adjusting = State.Idle ∨ State.Adjusting = State.Adjusting) ∧
      (State.Adjusting = State.Idle ∨ State.Adjusting = State.Adjusting) :=
  (C12_lifecycle 3 (fun _ => ⟨0, 0⟩) ⟨⟨0, 1⟩, 0, false, 0⟩).2.2
    [MachineCall.setup, MachineCall.loop ⟨0, 0⟩]
    [MachineCall.push ⟨5, 100⟩, MachineCall.loop ⟨1, 1⟩, MachineCall.loop ⟨2, 2⟩]
    { buffer := SpeedServoBuffer.new (fun _ => ⟨0, 0⟩)
      adjustingState := ⟨⟨0, 1⟩, 0, false, 0⟩
      servo := [ServoOp.attach 3, ServoOp.write 0]
      state := State.Idle, nextState := State.Idle, angle := 0, pin := 3 }
    { buffer :=
        { angles := Function.update (fun _ => ⟨0, 0⟩) 0 ⟨5, 100⟩, size := 0,
          readIndex := 1, writeIndex := 1, drainCallback := none, emptyCallback := none }
      adjustingState := ⟨⟨5, 100⟩, 2, false, 10⟩
      servo := [ServoOp.attach 3, ServoOp.write 0, ServoOp.write 1]
      state := State.Adjusting, nextState := State.Adjusting, angle := 1, pin := 3 }
    rfl rfl rfl

/-- In normal operation a tick returns and keeps the invariant of normal
operation. -/
theorem loop_normalInv (m : ServoMod) (t : Tick) (hk : m.normalInv) :
    ∃ x ev, m.loop t = .ok (x, ev) ∧ x.normalInv := by
  obtain ⟨hwf, hdc, hsp, hpend⟩ := hk
  by_cases henter : m.nextState = State.Adjusting ∧ m.state ≠ State.Adjusting
  · -- the tick enters `Adjusting`: the pop finds a target
    obtain ⟨hnx, hst⟩ := henter
    have hsz := hpend hnx hst
    obtain ⟨ev, hev⟩ := popEvents_ok_of_drain (popped m.buffer) (by simpa [popped] using hdc)
    obtain ⟨hwf2, hcont⟩ := popped_wellFormed m.buffer hwf hsz
    have hhead : toUL (m.buffer.angles m.buffer.readIndex).speed ≠ 0 := by
      apply hsp
      rw [hcont]
      exact List.mem_cons_self _ _
    have hloop := loop_enter m t ev hst hnx hsz (wellFormed_inBounds_read _ hwf) hev hhead
    obtain ⟨h1, h2, -⟩ := adjustingStep_spec
      { m with
        state := State.Adjusting
        buffer := popped m.buffer
        adjustingState :=
          { target := m.buffer.angles m.buffer.readIndex
            lastMillis := m.adjustingState.lastMillis
            firstIter := false
            intervalMillis := 1000 / toUL (m.buffer.angles m.buffer.readIndex).speed } } t
    simp only at h1 h2
    refine ⟨_, ev, hloop, ?_, ?_, ?_, ?_⟩
    · rw [h1]
      exact hwf2
    · rw [h1]
      simpa [popped] using hdc
    · rw [h1]
      intro u hu
      apply hsp
      rw [hcont]
      exact List.mem_cons_of_mem _ hu
    · intro _ hne
      exact absurd h2 hne
  · -- no entry action to run, or the entry action of `Idle` or `Uninitialized`
    have hloop : m.loop t
        = .ok (ServoMod.stateDo { m with state := m.nextState } t, []) := by
      by_cases he : m.state = m.nextState
      · have hm : ({ m with state := m.nextState } : ServoMod) = m := by
          cases m
          simp only at he
          subst he
          rfl
        rw [hm]
        simp [ServoMod.loop, he]
      · have hna : m.nextState ≠ State.Adjusting := by
          intro hnx
          apply henter
          refine ⟨hnx, ?_⟩
          rw [← hnx]
          exact he
        cases hnx : m.nextState
        · rw [hnx] at he
          simp [ServoMod.loop, he, stateExit_eq, ServoMod.stateEntry, hnx]
        · rw [hnx] at he
          simp [ServoMod.loop, he, stateExit_eq, ServoMod.stateEntry, hnx]
        · exact absurd hnx hna
    obtain ⟨hbuf, hst, -, hnx, -⟩ := stateDo_spec { m with state := m.nextState } t
    simp only at hbuf hst hnx
    refine ⟨_, [], hloop, ?_, ?_, ?_, ?_⟩
    · rw [hbuf]
      exact hwf
    · rw [hbuf]
      exact hdc
    · rw [hbuf]
      exact hsp
    · intro hadj hne
      rw [hbuf]
      rw [hst] at hne
      rcases hnx with h1 | h1 | h1
      · rw [h1] at hadj
        exact absurd hadj hne
      · exact absurd h1.1 hne
      · exact h1.2.2

/-- In normal operation a call from outside returns and keeps the invariant of
normal operation. -/
theorem call_normalInv (m : ServoMod) (c : MachineCall) (hk : m.normalInv)
    (hc : c.normal) : ∃ x, m.call c = .ok x ∧ x.normalInv := by
  cases c with
  | setup =>
    refine ⟨_, rfl, ?_⟩
    obtain ⟨hwf, hdc, hsp, hpend⟩ := hk
    obtain ⟨hbuf, hst, hnx⟩ := setup_states m
    refine ⟨by rw [hbuf]; exact hwf, by rw [hbuf]; exact hdc, by rw [hbuf]; exact hsp, ?_⟩
    intro hadj hne
    rw [hbuf]
    rw [hst] at hne
    rcases hnx with h1 | h1
    · rw [h1] at hadj
      exact hpend hadj hne
    · rw [h1.2] at hadj
      cases hadj
  | loop t =>
    obtain ⟨x, ev, hloop, hx⟩ := loop_normalInv m t hk
    exact ⟨x, by simp only [ServoMod.call, hloop], hx⟩
  | push u =>
    obtain ⟨hwf, hdc, hsp, hpend⟩ := hk
    by_cases hs : m.buffer.size = 20
    · have hp := push_full m.buffer u (by simpa [SPEED_SERVO_BUFFER_SIZE] using hs)
      refine ⟨_, by simp only [ServoMod.call, hp], hwf, hdc, hsp, hpend⟩
    · obtain ⟨r, hp, -, -, hwf2, hcont, hsz, -, hdc2, -⟩ := push_wellFormed m.buffer u hwf hs
      refine ⟨{ m with buffer := r.buffer }, by simp only [ServoMod.call, hp], hwf2,
        by rw [hdc2]; exact hdc, ?_, ?_⟩
      · intro v hv
        simp only [hcont, List.mem_append, List.mem_singleton] at hv
        rcases hv with hv | hv
        · exact hsp v hv
        · rw [hv]
          exact toUL_ne_zero _ hc.1 hc.2
      · intro _ _
        simp only [hsz]
        have := hwf.2.2.2.2.1
        omega
  | onDrain cb =>
    obtain ⟨hwf, hdc, hsp, hpend⟩ := hk
    exact ⟨_, rfl, hwf, hc, hsp, hpend⟩
  | onEmpty cb =>
    obtain ⟨hwf, hdc, hsp, hpend⟩ := hk
    exact ⟨_, rfl, hwf, hdc, hsp, hpend⟩

theorem runCalls_normalInv (cs : List MachineCall) :
    ∀ m : ServoMod, m.normalInv → (∀ c ∈ cs, c.normal) →
      ∃ x, m.runCalls cs = .ok x ∧ x.normalInv := by
  induction cs with
  | nil =>
    intro m hk _
    exact ⟨m, rfl, hk⟩
  | cons c cs ih =>
    intro m hk hn
    obtain ⟨m1, hc, hk1⟩ := call_normalInv m c hk (hn c (List.mem_cons_self _ _))
    obtain ⟨x, hx, hkx⟩ := ih m1 hk1 (fun d hd => hn d (List.mem_cons_of_mem _ hd))
    exact ⟨x, by simp only [ServoMod.runCalls, hc, hx], hkx⟩

/-- C13 (fatal entry unreachable in normal operation).  The entry action of
`Adjusting` takes the fatal branch (`errorHandler()`) exactly when the queue is
empty.  On a constructed machine whose drain callback is registered first,
every finite sequence of calls of `setup()`, `loop()`, `push` with a non-zero
speed and the setters (the drain callback never unset) returns, so no tick of
it takes the fatal branch, and along it `Adjusting` is pending only over a
non-empty queue. -/
theorem C13_fatal_entry_unreachable :
    (∀ m : ServoMod, m.adjustingEntry = .error Fault.errorHandler ↔ m.buffer.size = 0) ∧
    (∀ (pin : Int) (mem : Int → SpeedServoTarget) (adj : AdjustingState) (d : Nat)
      (cs : List MachineCall), (∀ c ∈ cs, c.normal) →
      ∃ x, (ServoMod.new pin mem adj).runCalls (MachineCall.onDrain (some d) :: cs) = .ok x ∧
        (x.nextState = State.Adjusting → x.state ≠ State.Adjusting →
          x.buffer.size ≠ 0)) := by
  refine ⟨adjustingEntry_fatal_iff, ?_⟩
  intro pin mem adj d cs hn
  have hk0 : ServoMod.normalInv
      { ServoMod.new pin mem adj with
        buffer := (ServoMod.new pin mem adj).buffer.onDrain (some d) } := by
    refine ⟨?_, ?_, ?_, ?_⟩
    · simp [SpeedServoBuffer.wellFormed, ServoMod.new, SpeedServoBuffer.new,
        SpeedServoBuffer.onDrain]
    · simp [ServoMod.new, SpeedServoBuffer.new, SpeedServoBuffer.onDrain]
    · simp [SpeedServoBuffer.contents, ServoMod.new, SpeedServoBuffer.new,
        SpeedServoBuffer.onDrain]
    · simp [ServoMod.new]
  obtain ⟨x, hx, hkx⟩ := runCalls_normalInv cs _ hk0 hn
  refine ⟨x, ?_, hkx.2.2.2⟩
  simp only [ServoMod.runCalls, ServoMod.call]
  exact hx

/-- C13 at a concrete input: callbacks, `setup()`, a push and three ticks. -/
theorem C13_fatal_entry_unreachable_witness :
    ∃ x, (ServoMod.new 3 (fun _ => ⟨0, 0⟩) ⟨⟨0, 1⟩, 0, false, 0⟩).runCalls
        (MachineCall.onDrain (some 1) ::
          [MachineCall.onEmpty (some 2), MachineCall.setup, MachineCall.push ⟨5, 100⟩,
            MachineCall.loop ⟨0, 0⟩, MachineCall.loop ⟨1, 1⟩, MachineCall.loop ⟨2, 2⟩])
        = .ok x ∧
      (x.nextState = State.Adjusting → x.state ≠ State.Adjusting → x.buffer.size ≠ 0) :=
  C13_fatal_entry_unreachable.2 3 (fun _ => ⟨0, 0⟩) ⟨⟨0, 1⟩, 0, false, 0⟩ 1
    [MachineCall.onEmpty (some 2), MachineCall.setup, MachineCall.push ⟨5, 100⟩,
      MachineCall.loop ⟨0, 0⟩, MachineCall.loop ⟨1, 1⟩, MachineCall.loop ⟨2, 2⟩]
    (by decide)
